import Mathlib

/-!
Verification development for the Clarity read-only checker
(`src/vm/analysis/read_only_checker/mod.rs`).

The checker walks a contract's top-level forms, classifies every expression
as read-only or not, and rejects contracts whose `define-read-only`
functions have bodies that can mutate persistent state.

The embedding below translates the Rust module function by function.  Rust
slice indexing that can go out of bounds (`args[1]`, `args[2]`) is modelled
by an explicit `abort` outcome of the result type, since an out-of-bounds
index aborts the process rather than returning an error value.
-/

namespace ReadOnlyChecker

/-- Clarity values, as far as this pass inspects them.  The checker only
ever looks at whether a literal is a contract principal
(`Value::Principal(PrincipalData::Contract(..))`); every other value is
opaque to it. -/
inductive Value where
  | contractPrincipal (identifier : String)
  | standardPrincipal (identifier : String)
  | intValue (i : Int)
  | boolValue (b : Bool)
deriving Repr, DecidableEq

/-- `SymbolicExpression` from `vm::representations`, flattened to its
`expr : SymbolicExpressionType` payload (the id/span metadata is never
consulted by this pass).  The `List` variant is spelled `listE` because
`List` is taken by Lean's list type. -/
inductive SymbolicExpression where
  | AtomValue (v : Value)
  | Atom (name : String)
  | listE (children : List SymbolicExpression)
  | LiteralValue (v : Value)

/-- `SymbolicExpression::match_list`. -/
def matchList : SymbolicExpression → Option (List SymbolicExpression)
  | .listE children => some children
  | _ => none

/-- `SymbolicExpression::match_atom`. -/
def matchAtom : SymbolicExpression → Option String
  | .Atom name => some name
  | _ => none

mutual

/-- Size of one expression; the termination measure for the evaluator. -/
def sizeExp : SymbolicExpression → Nat
  | .AtomValue _ => 1
  | .Atom _ => 1
  | .LiteralValue _ => 1
  | .listE children => 1 + sizeList children

/-- Total size of a list of expressions (counting one per element, so a
cons is strictly larger than its tail). -/
def sizeList : List SymbolicExpression → Nat
  | [] => 0
  | e :: rest => 1 + sizeExp e + sizeList rest

end

theorem sizeExp_pos (e : SymbolicExpression) : 1 ≤ sizeExp e := by
  cases e <;> simp [sizeExp]

/-- The error kinds of `CheckErrors` that this module can raise.
`BadLetForm` embeds the source's `BadLetSyntax` and `BadBindingPair`
embeds the source's `BadSyntaxBinding` (renamed here). -/
inductive CheckErrors where
  | IncorrectArgumentCount (expected actual : Nat)
  | RequiresAtLeastArguments (expected actual : Nat)
  | DefineFunctionBadSignature
  | BadFunctionName
  | WriteAttemptedInReadOnly
  | TupleExpectsPairs
  | BadLetForm
  | BadBindingPair
  | NonFunctionApplication
  | UnknownFunction (name : String)
  | ContractCallExpectName
deriving Repr, DecidableEq

/-- `CheckError`: an error kind plus the optionally attached source
expression used for diagnostics. -/
structure CheckError where
  err : CheckErrors
  expression : Option SymbolicExpression

/-- `CheckResult<α>`, extended with an `abort` outcome that models a Rust
panic (here: only slice indexing out of bounds).  A Rust `Result` value is
always `ok` or `err`; `abort` marks control flow that never returns. -/
inductive CheckResult (α : Type) where
  | ok (a : α)
  | err (e : CheckError)
  | abort

/-- Rust's `?` on a `CheckResult`: continue on `ok`, propagate otherwise. -/
def CheckResult.bind {α β : Type} : CheckResult α → (α → CheckResult β) →
    CheckResult β
  | .ok a, f => f a
  | .err e, _ => .err e
  | .abort, _ => .abort

@[simp] theorem CheckResult.bind_ok {α β : Type} (a : α)
    (f : α → CheckResult β) : CheckResult.bind (.ok a) f = f a := rfl

@[simp] theorem CheckResult.bind_err {α β : Type} (e : CheckError)
    (f : α → CheckResult β) : CheckResult.bind (.err e) f = .err e := rfl

@[simp] theorem CheckResult.bind_abort {α β : Type}
    (f : α → CheckResult β) : CheckResult.bind .abort f = .abort := rfl

/-- `check_argument_count` from the errors module: exact arity check.
Modelled from the spec: the errors module is outside this source file;
the spec requires an argument-count diagnostic carrying the expected
count. -/
def checkArgumentCount (expected : Nat) (args : List SymbolicExpression) :
    CheckResult Unit :=
  if args.length = expected then .ok ()
  else .err ⟨.IncorrectArgumentCount expected args.length, none⟩

/-- `check_arguments_at_least` from the errors module.
Modelled from the spec: a form requiring a minimum arity fails with an
insufficient-argument-count diagnostic. -/
def checkArgumentsAtLeast (expected : Nat) (args : List SymbolicExpression) :
    CheckResult Unit :=
  if expected ≤ args.length then .ok ()
  else .err ⟨.RequiresAtLeastArguments expected args.length, none⟩

/-- `NativeFunctions`: the closed catalog of built-in operators, exactly
the variants matched by `handle_native_function`. -/
inductive NativeFunctions where
  | Add | Subtract | Divide | Multiply | CmpGeq | CmpLeq | CmpLess | CmpGreater
  | Modulo | Power | BitwiseXOR | And | Or | Not | Hash160 | Sha256 | Keccak256
  | Equals | If | Sha512 | Sha512Trunc256
  | ConsSome | ConsOkay | ConsError | DefaultTo | Expects | ExpectsErr
  | IsOkay | IsNone | ToUInt | ToInt
  | ListCons | GetBlockInfo | TupleGet | Print | AsContract | Begin
  | FetchVar | GetTokenBalance | GetAssetOwner
  | FetchEntry | FetchContractEntry
  | SetEntry | DeleteEntry | InsertEntry | SetVar
  | MintAsset | MintToken | TransferAsset | TransferToken
  | Let | Map | Filter | Fold | TupleCons | ContractCall
deriving Repr, DecidableEq

/-- `NativeFunctions::lookup_by_name`.
Modelled from the spec: the name catalog lives in `vm::functions`, outside
this source file; the spec describes it as a static, closed lookup from
identifier to native-operator kind. -/
def lookupByName : String → Option NativeFunctions
  | "+" => some .Add
  | "-" => some .Subtract
  | "/" => some .Divide
  | "*" => some .Multiply
  | ">=" => some .CmpGeq
  | "<=" => some .CmpLeq
  | "<" => some .CmpLess
  | ">" => some .CmpGreater
  | "mod" => some .Modulo
  | "pow" => some .Power
  | "xor" => some .BitwiseXOR
  | "and" => some .And
  | "or" => some .Or
  | "not" => some .Not
  | "hash160" => some .Hash160
  | "sha256" => some .Sha256
  | "keccak256" => some .Keccak256
  | "eq?" => some .Equals
  | "if" => some .If
  | "sha512" => some .Sha512
  | "sha512/256" => some .Sha512Trunc256
  | "some" => some .ConsSome
  | "ok" => some .ConsOkay
  | "err" => some .ConsError
  | "default-to" => some .DefaultTo
  | "expects!" => some .Expects
  | "expects-err!" => some .ExpectsErr
  | "is-ok?" => some .IsOkay
  | "is-none?" => some .IsNone
  | "to-uint" => some .ToUInt
  | "to-int" => some .ToInt
  | "list" => some .ListCons
  | "get-block-info" => some .GetBlockInfo
  | "get" => some .TupleGet
  | "print" => some .Print
  | "as-contract" => some .AsContract
  | "begin" => some .Begin
  | "fetch-var" => some .FetchVar
  | "get-token-balance" => some .GetTokenBalance
  | "get-owner" => some .GetAssetOwner
  | "fetch-entry" => some .FetchEntry
  | "fetch-contract-entry" => some .FetchContractEntry
  | "set-entry!" => some .SetEntry
  | "delete-entry!" => some .DeleteEntry
  | "insert-entry!" => some .InsertEntry
  | "set-var!" => some .SetVar
  | "mint-asset!" => some .MintAsset
  | "mint-token!" => some .MintToken
  | "transfer-asset!" => some .TransferAsset
  | "transfer-token!" => some .TransferToken
  | "let" => some .Let
  | "map" => some .Map
  | "filter" => some .Filter
  | "fold" => some .Fold
  | "tuple" => some .TupleCons
  | "contract-call!" => some .ContractCall
  | _ => none

/-- `DefineFunctions`: the closed catalog of top-level define forms. -/
inductive DefineFunctions where
  | Constant | Map | PersistedVariable | FungibleToken | NonFungibleToken
  | PrivateFunction | PublicFunction | ReadOnlyFunction
deriving Repr, DecidableEq

/-- Lookup from leading identifier to define-form kind.
Modelled from the spec: the define-form catalog lives in
`vm::functions::define`, outside this source file. -/
def lookupDefineFunction : String → Option DefineFunctions
  | "define-constant" => some .Constant
  | "define-map" => some .Map
  | "define-data-var" => some .PersistedVariable
  | "define-fungible-token" => some .FungibleToken
  | "define-non-fungible-token" => some .NonFungibleToken
  | "define-private" => some .PrivateFunction
  | "define-public" => some .PublicFunction
  | "define-read-only" => some .ReadOnlyFunction
  | _ => none

/-- `DefineFunctions::try_parse`.
Modelled from the spec: a define form is a top-level list whose leading
identifier names a define-form kind; anything else is not a define form. -/
def tryParse (expr : SymbolicExpression) :
    Option (DefineFunctions × List SymbolicExpression) :=
  match expr with
  | .listE (.Atom name :: args) =>
    match lookupDefineFunction name with
    | some defineType => some (defineType, args)
    | none => none
  | _ => none

/-- `TupleDefinitionType` from `vm::functions::tuples`. -/
inductive TupleDefinitionType where
  | Implicit (entries : List SymbolicExpression)
  | Explicit

/-- `tuples::get_definition_type_of_tuple_argument`.
Modelled from the spec: the key argument of a keyed-storage read is either
an explicit tuple-construction expression or an implicit shorthand list of
key/value pairs. -/
def getDefinitionTypeOfTupleArgument (e : SymbolicExpression) :
    TupleDefinitionType :=
  match e with
  | .listE children =>
    match children with
    | .Atom name :: _ =>
      if lookupByName name = some .TupleCons then .Explicit
      else .Implicit children
    | _ => .Implicit children
  | _ => .Explicit

theorem getDefinitionType_implicit_size {e : SymbolicExpression}
    {entries : List SymbolicExpression}
    (h : getDefinitionTypeOfTupleArgument e = .Implicit entries) :
    sizeList entries < sizeExp e := by
  cases e with
  | AtomValue v => simp [getDefinitionTypeOfTupleArgument] at h
  | Atom n => simp [getDefinitionTypeOfTupleArgument] at h
  | LiteralValue v => simp [getDefinitionTypeOfTupleArgument] at h
  | listE children =>
    have he : entries = children := by
      cases children with
      | nil =>
        simp [getDefinitionTypeOfTupleArgument] at h
        exact h
      | cons hd tl =>
        cases hd with
        | Atom name =>
          simp only [getDefinitionTypeOfTupleArgument] at h
          split at h
          · exact absurd h (by simp)
          · injection h with h2
            exact h2.symm
        | AtomValue v =>
          simp only [getDefinitionTypeOfTupleArgument] at h
          injection h with h2
          exact h2.symm
        | LiteralValue v =>
          simp only [getDefinitionTypeOfTupleArgument] at h
          injection h with h2
          exact h2.symm
        | listE inner =>
          simp only [getDefinitionTypeOfTupleArgument] at h
          injection h with h2
          exact h2.symm
    subst he
    simp [sizeExp]

/-- The pass-local definition table `defined_functions : HashMap<ClarityName, bool>`.
An association list looked up front-first models the hash map: `insert`
conses, so the most recent insertion for a name wins. -/
def Table := List (String × Bool)

/-- Hash-map lookup on the association-list model. -/
def lookupTable (tbl : Table) (name : String) : Option Bool :=
  match tbl with
  | [] => none
  | (k, v) :: rest => if k = name then some v else lookupTable rest name

/-- The external analysis database, exposed to this pass only through
`get_read_only_function_type(contract, name)`; `some` means the function
is registered read-only on that contract.
Modelled from the spec: the database is an external collaborator answering
a single query. -/
def AnalysisDatabase := String → String → Option Unit

mutual

/-- `are_all_read_only`: folds the purity of a slice of expressions.
The Rust closure is `Ok(acc? && self.is_read_only(&argument)?)`: an
errored accumulator propagates unchanged through the remaining elements,
and because `&&` short-circuits, once the accumulator is `false` no
further `is_read_only` call is made — the remaining elements are not
visited, so the whole fold is `Ok(false)`. -/
def areAllReadOnly (db : AnalysisDatabase) (tbl : Table) (initial : Bool)
    (expressions : List SymbolicExpression) : CheckResult Bool :=
  match expressions with
  | [] => .ok initial
  | argument :: rest =>
    if initial then
      match isReadOnly db tbl argument with
      | .ok b => areAllReadOnly db tbl b rest
      | .err e => .err e
      | .abort => .abort
    else .ok false
termination_by 5 * sizeList expressions + 4
decreasing_by
  all_goals (simp only [sizeExp, sizeList]; omega)

/-- `is_implicit_tuple_definition_read_only`: each entry must be a
2-element list; the conjunction is over the value (second) components,
returning early on the first non-read-only value. -/
def isImplicitTupleDefinitionReadOnly (db : AnalysisDatabase) (tbl : Table)
    (tuplePairs : List SymbolicExpression) : CheckResult Bool :=
  match tuplePairs with
  | [] => .ok true
  | tupleExpr :: rest =>
    match tupleExpr with
    | .listE [_, valueExpr] =>
      match isReadOnly db tbl valueExpr with
      | .ok true => isImplicitTupleDefinitionReadOnly db tbl rest
      | .ok false => .ok false
      | .err e => .err e
      | .abort => .abort
    | .listE _ => .err ⟨.TupleExpectsPairs, none⟩
    | _ => .err ⟨.TupleExpectsPairs, none⟩
termination_by 5 * sizeList tuplePairs + 1
decreasing_by
  all_goals
    first
    | omega
    | (simp only [sizeExp, sizeList]; omega)

/-- The binding loop inside the `Let` arm of `handle_native_function`:
each binding must be a 2-element list (else `BadSyntaxBinding`, embedded
as `BadBindingPair`), and `Ok(false)` is returned as soon as a binding
value is not read-only. -/
def letBindingsReadOnly (db : AnalysisDatabase) (tbl : Table)
    (bindingList : List SymbolicExpression) : CheckResult Bool :=
  match bindingList with
  | [] => .ok true
  | pair :: rest =>
    match pair with
    | .listE [_, valueExpr] =>
      match isReadOnly db tbl valueExpr with
      | .ok true => letBindingsReadOnly db tbl rest
      | .ok false => .ok false
      | .err e => .err e
      | .abort => .abort
    | .listE _ => .err ⟨.BadBindingPair, none⟩
    | _ => .err ⟨.BadBindingPair, none⟩
termination_by 5 * sizeList bindingList + 1
decreasing_by
  all_goals
    first
    | omega
    | (simp only [sizeExp, sizeList]; omega)

/-- `try_native_function_check`: dispatch to the native rule when the name
is in the native catalog. -/
def tryNativeFunctionCheck (db : AnalysisDatabase) (tbl : Table)
    (function : String) (args : List SymbolicExpression) :
    Option (CheckResult Bool) :=
  match lookupByName function with
  | some f => some (handleNativeFunction db tbl f args)
  | none => none
termination_by 5 * sizeList args + 6
decreasing_by
  all_goals omega

/-- `handle_native_function`: the per-operator purity rules.  The
`FetchEntry`/`FetchContractEntry` arms index `args[1]`/`args[2]` without
an arity check; a too-short slice is an out-of-bounds abort. -/
def handleNativeFunction (db : AnalysisDatabase) (tbl : Table)
    (function : NativeFunctions) (args : List SymbolicExpression) :
    CheckResult Bool :=
  match function with
  | .Add | .Subtract | .Divide | .Multiply | .CmpGeq | .CmpLeq | .CmpLess
  | .CmpGreater | .Modulo | .Power | .BitwiseXOR | .And | .Or | .Not
  | .Hash160 | .Sha256 | .Keccak256 | .Equals | .If | .Sha512
  | .Sha512Trunc256 | .ConsSome | .ConsOkay | .ConsError | .DefaultTo
  | .Expects | .ExpectsErr | .IsOkay | .IsNone | .ToUInt | .ToInt
  | .ListCons | .GetBlockInfo | .TupleGet | .Print | .AsContract | .Begin
  | .FetchVar | .GetTokenBalance | .GetAssetOwner =>
    areAllReadOnly db tbl true args
  | .FetchEntry =>
    match args with
    | arg0 :: arg1 :: rest =>
      match h : getDefinitionTypeOfTupleArgument arg1 with
      | .Implicit tupleExpr => isImplicitTupleDefinitionReadOnly db tbl tupleExpr
      | .Explicit => areAllReadOnly db tbl true (arg0 :: arg1 :: rest)
    | _ => .abort
  | .FetchContractEntry =>
    match args with
    | arg0 :: arg1 :: arg2 :: rest =>
      match h : getDefinitionTypeOfTupleArgument arg2 with
      | .Implicit tupleExpr => isImplicitTupleDefinitionReadOnly db tbl tupleExpr
      | .Explicit => areAllReadOnly db tbl true (arg0 :: arg1 :: arg2 :: rest)
    | _ => .abort
  | .SetEntry | .DeleteEntry | .InsertEntry | .SetVar | .MintAsset
  | .MintToken | .TransferAsset | .TransferToken =>
    .ok false
  | .Let =>
    CheckResult.bind (checkArgumentsAtLeast 2 args) (fun _ =>
      match args with
      | arg0 :: body =>
        match arg0 with
        | .listE bindingList =>
          match letBindingsReadOnly db tbl bindingList with
          | .ok true => areAllReadOnly db tbl true body
          | .ok false => .ok false
          | .err e => .err e
          | .abort => .abort
        | _ => .err ⟨.BadLetForm, none⟩
      | [] => .abort)
  | .Map | .Filter =>
    CheckResult.bind (checkArgumentCount 2 args) (fun _ =>
      isFunctionApplicationReadOnly db tbl args)
  | .Fold =>
    CheckResult.bind (checkArgumentCount 3 args) (fun _ =>
      isFunctionApplicationReadOnly db tbl args)
  | .TupleCons =>
    isImplicitTupleDefinitionReadOnly db tbl args
  | .ContractCall =>
    CheckResult.bind (checkArgumentsAtLeast 2 args) (fun _ =>
      match args with
      | arg0 :: arg1 :: rest =>
        match arg0 with
        | .LiteralValue (.contractPrincipal contractIdentifier) =>
          match arg1 with
          | .Atom functionName =>
            areAllReadOnly db tbl
              ((db contractIdentifier functionName).isSome) rest
          | _ => .err ⟨.ContractCallExpectName, none⟩
        | _ => .err ⟨.ContractCallExpectName, none⟩
      | _ => .abort)
termination_by 5 * sizeList args + 5
decreasing_by
  all_goals
    first
    | omega
    | (simp only [sizeExp, sizeList]; omega)
    | (have h1 := getDefinitionType_implicit_size h
       simp only [sizeExp, sizeList]
       omega)

/-- `is_function_application_read_only`: head must be a bare identifier;
native operators dispatch to their rule, otherwise the definition table is
consulted (absence is `UnknownFunction`). -/
def isFunctionApplicationReadOnly (db : AnalysisDatabase) (tbl : Table)
    (expression : List SymbolicExpression) : CheckResult Bool :=
  match expression with
  | [] => .err ⟨.NonFunctionApplication, none⟩
  | functionExpr :: args =>
    match functionExpr with
    | .Atom name =>
      match tryNativeFunctionCheck db tbl name args with
      | some result => result
      | none =>
        match lookupTable tbl name with
        | some isFnReadOnly => areAllReadOnly db tbl isFnReadOnly args
        | none => .err ⟨.UnknownFunction name, none⟩
    | _ => .err ⟨.NonFunctionApplication, none⟩
termination_by 5 * sizeList expression + 2
decreasing_by
  all_goals
    first
    | omega
    | (simp only [sizeExp, sizeList]; omega)

/-- `is_read_only`: literals and bare identifiers are read-only; a list is
a function application. -/
def isReadOnly (db : AnalysisDatabase) (tbl : Table)
    (expr : SymbolicExpression) : CheckResult Bool :=
  match expr with
  | .AtomValue _ => .ok true
  | .LiteralValue _ => .ok true
  | .Atom _ => .ok true
  | .listE expression => isFunctionApplicationReadOnly db tbl expression
termination_by 5 * sizeExp expr + 3
decreasing_by
  all_goals
    first
    | omega
    | (simp only [sizeExp, sizeList]; omega)

end

/-- `check_define_function`: destructure `(signature, body)`, extract the
function name from the signature head, and compute the body's purity.
This function never touches the definition table. -/
def checkDefineFunction (db : AnalysisDatabase) (tbl : Table)
    (args : List SymbolicExpression) : CheckResult (String × Bool) :=
  CheckResult.bind (checkArgumentCount 2 args) (fun _ =>
    match args with
    | [signature, body] =>
      match matchList signature with
      | none => .err ⟨.DefineFunctionBadSignature, none⟩
      | some signatureList =>
        match signatureList with
        | [] => .err ⟨.DefineFunctionBadSignature, none⟩
        | first :: _ =>
          match matchAtom first with
          | none => .err ⟨.BadFunctionName, none⟩
          | some functionName =>
            match isReadOnly db tbl body with
            | .ok b => .ok (functionName, b)
            | .err e => .err e
            | .abort => .abort
    | _ => .abort)

/-- `check_reads_only_valid`: process one top-level form.  The returned
table is the state of `defined_functions` after the call: the only inserts
in the source happen here, after `check_define_function` succeeded. -/
def checkReadsOnlyValid (db : AnalysisDatabase) (tbl : Table)
    (expr : SymbolicExpression) : Table × CheckResult Unit :=
  match tryParse expr with
  | none => (tbl, .ok ())
  | some (defineType, args) =>
    match defineType with
    | .Constant | .Map | .PersistedVariable | .FungibleToken
    | .NonFungibleToken =>
      (tbl, .ok ())
    | .PrivateFunction =>
      match checkDefineFunction db tbl args with
      | .ok (fName, isRO) => ((fName, isRO) :: tbl, .ok ())
      | .err e => (tbl, .err e)
      | .abort => (tbl, .abort)
    | .PublicFunction =>
      match checkDefineFunction db tbl args with
      | .ok (fName, isRO) => ((fName, isRO) :: tbl, .ok ())
      | .err e => (tbl, .err e)
      | .abort => (tbl, .abort)
    | .ReadOnlyFunction =>
      match checkDefineFunction db tbl args with
      | .ok (fName, isRO) =>
        if isRO then ((fName, isRO) :: tbl, .ok ())
        else (tbl, .err ⟨.WriteAttemptedInReadOnly, none⟩)
      | .err e => (tbl, .err e)
      | .abort => (tbl, .abort)

/-- The loop body of `run`: process the top-level expressions in order,
threading the table; on the first error, attach the triggering top-level
expression unless an inner frame already attached one, and stop. -/
def runLoop (db : AnalysisDatabase) (tbl : Table)
    (expressions : List SymbolicExpression) : Table × CheckResult Unit :=
  match expressions with
  | [] => (tbl, .ok ())
  | exp :: rest =>
    match checkReadsOnlyValid db tbl exp with
    | (tbl2, .ok _) => runLoop db tbl2 rest
    | (tbl2, .err e) =>
      (tbl2, .err (if e.expression.isSome then e
                   else { e with expression := some exp }))
    | (tbl2, .abort) => (tbl2, .abort)

/-- `run` on a fresh checker (`defined_functions` starts empty), as
invoked by `run_pass`. -/
def run (db : AnalysisDatabase) (contractExpressions : List SymbolicExpression) :
    Table × CheckResult Unit :=
  runLoop db [] contractExpressions

/-- The operators of the args-determine rule: purity is the conjunction of
the arguments' purity. -/
def argsDetermine : NativeFunctions → Bool
  | .Add | .Subtract | .Divide | .Multiply | .CmpGeq | .CmpLeq | .CmpLess
  | .CmpGreater | .Modulo | .Power | .BitwiseXOR | .And | .Or | .Not
  | .Hash160 | .Sha256 | .Keccak256 | .Equals | .If | .Sha512
  | .Sha512Trunc256 | .ConsSome | .ConsOkay | .ConsError | .DefaultTo
  | .Expects | .ExpectsErr | .IsOkay | .IsNone | .ToUInt | .ToInt
  | .ListCons | .GetBlockInfo | .TupleGet | .Print | .AsContract | .Begin
  | .FetchVar | .GetTokenBalance | .GetAssetOwner => true
  | _ => false

/-- The always-mutating operators: classified not-read-only regardless of
their arguments. -/
def alwaysMutating : NativeFunctions → Bool
  | .SetEntry | .DeleteEntry | .InsertEntry | .SetVar | .MintAsset
  | .MintToken | .TransferAsset | .TransferToken => true
  | _ => false

/-! ### Fuel-indexed reference evaluator

The following functions mirror the evaluator above but recurse on an
explicit fuel counter, consuming one unit at each entry; `none` means the
fuel ran out.  They exist to make the termination of the evaluator a
provable statement: the evaluator's recursion descends only into strict
sub-expressions, so fuel proportional to the size of the input expression
is always enough (`C10_theorem` below). -/

/-- `CheckResult.bind` lifted to fuel-indexed continuations. -/
def obind {α β : Type} : CheckResult α → (α → Option (CheckResult β)) →
    Option (CheckResult β)
  | .ok a, f => f a
  | .err e, _ => some (.err e)
  | .abort, _ => some .abort

mutual

def isReadOnlyF (db : AnalysisDatabase) (tbl : Table) :
    Nat → SymbolicExpression → Option (CheckResult Bool)
  | 0, _ => none
  | fuel + 1, expr =>
    match expr with
    | .AtomValue _ => some (.ok true)
    | .LiteralValue _ => some (.ok true)
    | .Atom _ => some (.ok true)
    | .listE expression => isFunctionApplicationReadOnlyF db tbl fuel expression

def areAllReadOnlyF (db : AnalysisDatabase) (tbl : Table) :
    Nat → Bool → List SymbolicExpression → Option (CheckResult Bool)
  | 0, _, _ => none
  | fuel + 1, initial, expressions =>
    match expressions with
    | [] => some (.ok initial)
    | argument :: rest =>
      if initial then
        match isReadOnlyF db tbl fuel argument with
        | some (.ok b) => areAllReadOnlyF db tbl fuel b rest
        | some (.err e) => some (.err e)
        | some .abort => some .abort
        | none => none
      else some (.ok false)

def isImplicitTupleDefinitionReadOnlyF (db : AnalysisDatabase) (tbl : Table) :
    Nat → List SymbolicExpression → Option (CheckResult Bool)
  | 0, _ => none
  | fuel + 1, tuplePairs =>
    match tuplePairs with
    | [] => some (.ok true)
    | tupleExpr :: rest =>
      match tupleExpr with
      | .listE [_, valueExpr] =>
        match isReadOnlyF db tbl fuel valueExpr with
        | some (.ok true) => isImplicitTupleDefinitionReadOnlyF db tbl fuel rest
        | some (.ok false) => some (.ok false)
        | some (.err e) => some (.err e)
        | some .abort => some .abort
        | none => none
      | .listE _ => some (.err ⟨.TupleExpectsPairs, none⟩)
      | _ => some (.err ⟨.TupleExpectsPairs, none⟩)

def letBindingsReadOnlyF (db : AnalysisDatabase) (tbl : Table) :
    Nat → List SymbolicExpression → Option (CheckResult Bool)
  | 0, _ => none
  | fuel + 1, bindingList =>
    match bindingList with
    | [] => some (.ok true)
    | pair :: rest =>
      match pair with
      | .listE [_, valueExpr] =>
        match isReadOnlyF db tbl fuel valueExpr with
        | some (.ok true) => letBindingsReadOnlyF db tbl fuel rest
        | some (.ok false) => some (.ok false)
        | some (.err e) => some (.err e)
        | some .abort => some .abort
        | none => none
      | .listE _ => some (.err ⟨.BadBindingPair, none⟩)
      | _ => some (.err ⟨.BadBindingPair, none⟩)

def handleNativeFunctionF (db : AnalysisDatabase) (tbl : Table) :
    Nat → NativeFunctions → List SymbolicExpression → Option (CheckResult Bool)
  | 0, _, _ => none
  | fuel + 1, function, args =>
    match function with
    | .Add | .Subtract | .Divide | .Multiply | .CmpGeq | .CmpLeq | .CmpLess
    | .CmpGreater | .Modulo | .Power | .BitwiseXOR | .And | .Or | .Not
    | .Hash160 | .Sha256 | .Keccak256 | .Equals | .If | .Sha512
    | .Sha512Trunc256 | .ConsSome | .ConsOkay | .ConsError | .DefaultTo
    | .Expects | .ExpectsErr | .IsOkay | .IsNone | .ToUInt | .ToInt
    | .ListCons | .GetBlockInfo | .TupleGet | .Print | .AsContract | .Begin
    | .FetchVar | .GetTokenBalance | .GetAssetOwner =>
      areAllReadOnlyF db tbl fuel true args
    | .FetchEntry =>
      match args with
      | arg0 :: arg1 :: rest =>
        match getDefinitionTypeOfTupleArgument arg1 with
        | .Implicit tupleExpr =>
          isImplicitTupleDefinitionReadOnlyF db tbl fuel tupleExpr
        | .Explicit => areAllReadOnlyF db tbl fuel true (arg0 :: arg1 :: rest)
      | _ => some .abort
    | .FetchContractEntry =>
      match args with
      | arg0 :: arg1 :: arg2 :: rest =>
        match getDefinitionTypeOfTupleArgument arg2 with
        | .Implicit tupleExpr =>
          isImplicitTupleDefinitionReadOnlyF db tbl fuel tupleExpr
        | .Explicit =>
          areAllReadOnlyF db tbl fuel true (arg0 :: arg1 :: arg2 :: rest)
      | _ => some .abort
    | .SetEntry | .DeleteEntry | .InsertEntry | .SetVar | .MintAsset
    | .MintToken | .TransferAsset | .TransferToken =>
      some (.ok false)
    | .Let =>
      obind (checkArgumentsAtLeast 2 args) (fun _ =>
        match args with
        | arg0 :: body =>
          match arg0 with
          | .listE bindingList =>
            match letBindingsReadOnlyF db tbl fuel bindingList with
            | some (.ok true) => areAllReadOnlyF db tbl fuel true body
            | some (.ok false) => some (.ok false)
            | some (.err e) => some (.err e)
            | some .abort => some .abort
            | none => none
          | _ => some (.err ⟨.BadLetForm, none⟩)
        | [] => some .abort)
    | .Map | .Filter =>
      obind (checkArgumentCount 2 args) (fun _ =>
        isFunctionApplicationReadOnlyF db tbl fuel args)
    | .Fold =>
      obind (checkArgumentCount 3 args) (fun _ =>
        isFunctionApplicationReadOnlyF db tbl fuel args)
    | .TupleCons =>
      isImplicitTupleDefinitionReadOnlyF db tbl fuel args
    | .ContractCall =>
      obind (checkArgumentsAtLeast 2 args) (fun _ =>
        match args with
        | arg0 :: arg1 :: rest =>
          match arg0 with
          | .LiteralValue (.contractPrincipal contractIdentifier) =>
            match arg1 with
            | .Atom functionName =>
              areAllReadOnlyF db tbl fuel
                ((db contractIdentifier functionName).isSome) rest
            | _ => some (.err ⟨.ContractCallExpectName, none⟩)
          | _ => some (.err ⟨.ContractCallExpectName, none⟩)
        | _ => some .abort)

def isFunctionApplicationReadOnlyF (db : AnalysisDatabase) (tbl : Table) :
    Nat → List SymbolicExpression → Option (CheckResult Bool)
  | 0, _ => none
  | fuel + 1, expression =>
    match expression with
    | [] => some (.err ⟨.NonFunctionApplication, none⟩)
    | functionExpr :: args =>
      match functionExpr with
      | .Atom name =>
        match lookupByName name with
        | some f => handleNativeFunctionF db tbl fuel f args
        | none =>
          match lookupTable tbl name with
          | some isFnReadOnly => areAllReadOnlyF db tbl fuel isFnReadOnly args
          | none => some (.err ⟨.UnknownFunction name, none⟩)
      | _ => some (.err ⟨.NonFunctionApplication, none⟩)

end

/-! ### Concrete fixtures used by counterexamples and witnesses -/

/-- An analysis database with no registered read-only functions. -/
def db0 : AnalysisDatabase := fun _ _ => none

/-- An analysis database where function `getter` of contract `ctr` is
registered read-only. -/
def db1 : AnalysisDatabase := fun c f =>
  if c = "ctr" then (if f = "getter" then some () else none) else none

/-- `(set-var! x 1)` — a directly mutating application. -/
def wExpr : SymbolicExpression :=
  .listE [.Atom "set-var!", .Atom "x", .LiteralValue (.intValue 1)]

/-- `(1)` — a malformed application whose head is not an identifier;
classifying it alone yields the non-function-application error. -/
def badExpr : SymbolicExpression := .listE [.LiteralValue (.intValue 1)]

/-- A define form `(<keyword> (<name> <sigRest>...) <body>)`. -/
def defineForm (keyword fname : String) (sigRest : List SymbolicExpression)
    (body : SymbolicExpression) : SymbolicExpression :=
  .listE [.Atom keyword, .listE (.Atom fname :: sigRest), body]

/-! ### One-step unfolding lemmas for the mutually recursive evaluator -/

theorem isReadOnly_AtomValue (db : AnalysisDatabase) (tbl : Table) (v : Value) :
    isReadOnly db tbl (.AtomValue v) = .ok true := by
  rw [isReadOnly.eq_def]

theorem isReadOnly_LiteralValue (db : AnalysisDatabase) (tbl : Table) (v : Value) :
    isReadOnly db tbl (.LiteralValue v) = .ok true := by
  rw [isReadOnly.eq_def]

theorem isReadOnly_Atom (db : AnalysisDatabase) (tbl : Table) (name : String) :
    isReadOnly db tbl (.Atom name) = .ok true := by
  rw [isReadOnly.eq_def]

theorem isReadOnly_listE (db : AnalysisDatabase) (tbl : Table)
    (expression : List SymbolicExpression) :
    isReadOnly db tbl (.listE expression) =
      isFunctionApplicationReadOnly db tbl expression := by
  rw [isReadOnly.eq_def]

theorem areAll_nil (db : AnalysisDatabase) (tbl : Table) (initial : Bool) :
    areAllReadOnly db tbl initial [] = .ok initial := by
  rw [areAllReadOnly.eq_def]

theorem areAll_cons_false (db : AnalysisDatabase) (tbl : Table)
    (a : SymbolicExpression) (rest : List SymbolicExpression) :
    areAllReadOnly db tbl false (a :: rest) = .ok false := by
  rw [areAllReadOnly.eq_def]
  simp

theorem areAll_cons_true (db : AnalysisDatabase) (tbl : Table)
    (a : SymbolicExpression) (rest : List SymbolicExpression) :
    areAllReadOnly db tbl true (a :: rest) =
      CheckResult.bind (isReadOnly db tbl a)
        (fun b => areAllReadOnly db tbl b rest) := by
  rw [areAllReadOnly.eq_def]
  cases hr : isReadOnly db tbl a <;> simp [hr, CheckResult.bind]

theorem isImplicit_nil (db : AnalysisDatabase) (tbl : Table) :
    isImplicitTupleDefinitionReadOnly db tbl [] = .ok true := by
  rw [isImplicitTupleDefinitionReadOnly.eq_def]

theorem isImplicit_cons_pair (db : AnalysisDatabase) (tbl : Table)
    (k v : SymbolicExpression) (rest : List SymbolicExpression) :
    isImplicitTupleDefinitionReadOnly db tbl (.listE [k, v] :: rest) =
      CheckResult.bind (isReadOnly db tbl v)
        (fun b => if b then isImplicitTupleDefinitionReadOnly db tbl rest
                  else .ok false) := by
  rw [isImplicitTupleDefinitionReadOnly.eq_def]
  cases hr : isReadOnly db tbl v with
  | ok b => cases b <;> simp [hr, CheckResult.bind]
  | err e => simp [hr, CheckResult.bind]
  | abort => simp [hr, CheckResult.bind]

theorem isImplicit_cons_badLength (db : AnalysisDatabase) (tbl : Table)
    (pl : List SymbolicExpression) (rest : List SymbolicExpression)
    (h : pl.length ≠ 2) :
    isImplicitTupleDefinitionReadOnly db tbl (.listE pl :: rest) =
      .err ⟨.TupleExpectsPairs, none⟩ := by
  rw [isImplicitTupleDefinitionReadOnly.eq_def]
  rcases pl with _ | ⟨a, _ | ⟨b, _ | ⟨c, tl⟩⟩⟩ <;> simp_all

theorem isImplicit_cons_nonList (db : AnalysisDatabase) (tbl : Table)
    (t : SymbolicExpression) (rest : List SymbolicExpression)
    (h : matchList t = none) :
    isImplicitTupleDefinitionReadOnly db tbl (t :: rest) =
      .err ⟨.TupleExpectsPairs, none⟩ := by
  rw [isImplicitTupleDefinitionReadOnly.eq_def]
  cases t <;> simp_all [matchList]

theorem letBindings_nil (db : AnalysisDatabase) (tbl : Table) :
    letBindingsReadOnly db tbl [] = .ok true := by
  rw [letBindingsReadOnly.eq_def]

theorem letBindings_cons_pair (db : AnalysisDatabase) (tbl : Table)
    (k v : SymbolicExpression) (rest : List SymbolicExpression) :
    letBindingsReadOnly db tbl (.listE [k, v] :: rest) =
      CheckResult.bind (isReadOnly db tbl v)
        (fun b => if b then letBindingsReadOnly db tbl rest
                  else .ok false) := by
  rw [letBindingsReadOnly.eq_def]
  cases hr : isReadOnly db tbl v with
  | ok b => cases b <;> simp [hr, CheckResult.bind]
  | err e => simp [hr, CheckResult.bind]
  | abort => simp [hr, CheckResult.bind]

theorem letBindings_cons_badLength (db : AnalysisDatabase) (tbl : Table)
    (pl : List SymbolicExpression) (rest : List SymbolicExpression)
    (h : pl.length ≠ 2) :
    letBindingsReadOnly db tbl (.listE pl :: rest) =
      .err ⟨.BadBindingPair, none⟩ := by
  rw [letBindingsReadOnly.eq_def]
  rcases pl with _ | ⟨a, _ | ⟨b, _ | ⟨c, tl⟩⟩⟩ <;> simp_all

theorem letBindings_cons_nonList (db : AnalysisDatabase) (tbl : Table)
    (t : SymbolicExpression) (rest : List SymbolicExpression)
    (h : matchList t = none) :
    letBindingsReadOnly db tbl (t :: rest) =
      .err ⟨.BadBindingPair, none⟩ := by
  rw [letBindingsReadOnly.eq_def]
  cases t <;> simp_all [matchList]

theorem tryNative_native (db : AnalysisDatabase) (tbl : Table)
    {name : String} {f : NativeFunctions} (args : List SymbolicExpression)
    (h : lookupByName name = some f) :
    tryNativeFunctionCheck db tbl name args =
      some (handleNativeFunction db tbl f args) := by
  rw [tryNativeFunctionCheck.eq_def, h]

theorem tryNative_notNative (db : AnalysisDatabase) (tbl : Table)
    {name : String} (args : List SymbolicExpression)
    (h : lookupByName name = none) :
    tryNativeFunctionCheck db tbl name args = none := by
  rw [tryNativeFunctionCheck.eq_def, h]

theorem ifaro_nil (db : AnalysisDatabase) (tbl : Table) :
    isFunctionApplicationReadOnly db tbl [] =
      .err ⟨.NonFunctionApplication, none⟩ := by
  rw [isFunctionApplicationReadOnly.eq_def]

theorem ifaro_head_not_atom (db : AnalysisDatabase) (tbl : Table)
    (headExpr : SymbolicExpression) (args : List SymbolicExpression)
    (h : matchAtom headExpr = none) :
    isFunctionApplicationReadOnly db tbl (headExpr :: args) =
      .err ⟨.NonFunctionApplication, none⟩ := by
  rw [isFunctionApplicationReadOnly.eq_def]
  cases headExpr <;> simp_all [matchAtom]

theorem ifaro_atom_native (db : AnalysisDatabase) (tbl : Table)
    {name : String} {f : NativeFunctions} (args : List SymbolicExpression)
    (h : lookupByName name = some f) :
    isFunctionApplicationReadOnly db tbl (.Atom name :: args) =
      handleNativeFunction db tbl f args := by
  simp only [isFunctionApplicationReadOnly.eq_def,
    tryNativeFunctionCheck.eq_def, h]

theorem ifaro_atom_defined (db : AnalysisDatabase) (tbl : Table)
    {name : String} {b : Bool} (args : List SymbolicExpression)
    (h : lookupByName name = none) (h2 : lookupTable tbl name = some b) :
    isFunctionApplicationReadOnly db tbl (.Atom name :: args) =
      areAllReadOnly db tbl b args := by
  simp only [isFunctionApplicationReadOnly.eq_def,
    tryNativeFunctionCheck.eq_def, h, h2]

theorem ifaro_atom_unknown (db : AnalysisDatabase) (tbl : Table)
    {name : String} (args : List SymbolicExpression)
    (h : lookupByName name = none) (h2 : lookupTable tbl name = none) :
    isFunctionApplicationReadOnly db tbl (.Atom name :: args) =
      .err ⟨.UnknownFunction name, none⟩ := by
  simp only [isFunctionApplicationReadOnly.eq_def,
    tryNativeFunctionCheck.eq_def, h, h2]

theorem handle_argsDetermine (db : AnalysisDatabase) (tbl : Table)
    (f : NativeFunctions) (args : List SymbolicExpression)
    (h : argsDetermine f = true) :
    handleNativeFunction db tbl f args = areAllReadOnly db tbl true args := by
  cases f <;>
    first
    | exact Bool.noConfusion h
    | rw [handleNativeFunction.eq_def]

theorem handle_alwaysMutating (db : AnalysisDatabase) (tbl : Table)
    (f : NativeFunctions) (args : List SymbolicExpression)
    (h : alwaysMutating f = true) :
    handleNativeFunction db tbl f args = .ok false := by
  cases f <;>
    first
    | exact Bool.noConfusion h
    | rw [handleNativeFunction.eq_def]

theorem handle_FetchEntry_nil (db : AnalysisDatabase) (tbl : Table) :
    handleNativeFunction db tbl .FetchEntry [] = .abort := by
  rw [handleNativeFunction.eq_def]

theorem handle_FetchEntry_one (db : AnalysisDatabase) (tbl : Table)
    (a0 : SymbolicExpression) :
    handleNativeFunction db tbl .FetchEntry [a0] = .abort := by
  rw [handleNativeFunction.eq_def]

theorem handle_FetchEntry_implicit (db : AnalysisDatabase) (tbl : Table)
    (a0 a1 : SymbolicExpression) (rest : List SymbolicExpression)
    {tupleExpr : List SymbolicExpression}
    (h : getDefinitionTypeOfTupleArgument a1 = .Implicit tupleExpr) :
    handleNativeFunction db tbl .FetchEntry (a0 :: a1 :: rest) =
      isImplicitTupleDefinitionReadOnly db tbl tupleExpr := by
  rw [handleNativeFunction.eq_def]
  dsimp only
  split <;> simp_all

theorem handle_FetchEntry_explicit (db : AnalysisDatabase) (tbl : Table)
    (a0 a1 : SymbolicExpression) (rest : List SymbolicExpression)
    (h : getDefinitionTypeOfTupleArgument a1 = .Explicit) :
    handleNativeFunction db tbl .FetchEntry (a0 :: a1 :: rest) =
      areAllReadOnly db tbl true (a0 :: a1 :: rest) := by
  rw [handleNativeFunction.eq_def]
  dsimp only
  split <;> simp_all

theorem handle_FetchContractEntry_short (db : AnalysisDatabase) (tbl : Table)
    (args : List SymbolicExpression) (h : args.length < 3) :
    handleNativeFunction db tbl .FetchContractEntry args = .abort := by
  rw [handleNativeFunction.eq_def]
  rcases args with _ | ⟨a, _ | ⟨b, _ | ⟨c, tl⟩⟩⟩
  · simp_all
  · simp_all
  · simp_all
  · simp only [List.length_cons] at h
    omega

theorem handle_FetchContractEntry_implicit (db : AnalysisDatabase) (tbl : Table)
    (a0 a1 a2 : SymbolicExpression) (rest : List SymbolicExpression)
    {tupleExpr : List SymbolicExpression}
    (h : getDefinitionTypeOfTupleArgument a2 = .Implicit tupleExpr) :
    handleNativeFunction db tbl .FetchContractEntry (a0 :: a1 :: a2 :: rest) =
      isImplicitTupleDefinitionReadOnly db tbl tupleExpr := by
  rw [handleNativeFunction.eq_def]
  dsimp only
  split <;> simp_all

theorem handle_FetchContractEntry_explicit (db : AnalysisDatabase) (tbl : Table)
    (a0 a1 a2 : SymbolicExpression) (rest : List SymbolicExpression)
    (h : getDefinitionTypeOfTupleArgument a2 = .Explicit) :
    handleNativeFunction db tbl .FetchContractEntry (a0 :: a1 :: a2 :: rest) =
      areAllReadOnly db tbl true (a0 :: a1 :: a2 :: rest) := by
  rw [handleNativeFunction.eq_def]
  dsimp only
  split <;> simp_all

theorem handle_Let (db : AnalysisDatabase) (tbl : Table)
    (args : List SymbolicExpression) :
    handleNativeFunction db tbl .Let args =
      CheckResult.bind (checkArgumentsAtLeast 2 args) (fun _ =>
        match args with
        | arg0 :: body =>
          match arg0 with
          | .listE bindingList =>
            match letBindingsReadOnly db tbl bindingList with
            | .ok true => areAllReadOnly db tbl true body
            | .ok false => .ok false
            | .err e => .err e
            | .abort => .abort
          | _ => .err ⟨.BadLetForm, none⟩
        | [] => .abort) := by
  rw [handleNativeFunction.eq_def]

theorem handle_Map (db : AnalysisDatabase) (tbl : Table)
    (args : List SymbolicExpression) :
    handleNativeFunction db tbl .Map args =
      CheckResult.bind (checkArgumentCount 2 args) (fun _ =>
        isFunctionApplicationReadOnly db tbl args) := by
  rw [handleNativeFunction.eq_def]

theorem handle_Filter (db : AnalysisDatabase) (tbl : Table)
    (args : List SymbolicExpression) :
    handleNativeFunction db tbl .Filter args =
      CheckResult.bind (checkArgumentCount 2 args) (fun _ =>
        isFunctionApplicationReadOnly db tbl args) := by
  rw [handleNativeFunction.eq_def]

theorem handle_Fold (db : AnalysisDatabase) (tbl : Table)
    (args : List SymbolicExpression) :
    handleNativeFunction db tbl .Fold args =
      CheckResult.bind (checkArgumentCount 3 args) (fun _ =>
        isFunctionApplicationReadOnly db tbl args) := by
  rw [handleNativeFunction.eq_def]

theorem handle_TupleCons (db : AnalysisDatabase) (tbl : Table)
    (args : List SymbolicExpression) :
    handleNativeFunction db tbl .TupleCons args =
      isImplicitTupleDefinitionReadOnly db tbl args := by
  rw [handleNativeFunction.eq_def]

theorem handle_ContractCall (db : AnalysisDatabase) (tbl : Table)
    (args : List SymbolicExpression) :
    handleNativeFunction db tbl .ContractCall args =
      CheckResult.bind (checkArgumentsAtLeast 2 args) (fun _ =>
        match args with
        | arg0 :: arg1 :: rest =>
          match arg0 with
          | .LiteralValue (.contractPrincipal contractIdentifier) =>
            match arg1 with
            | .Atom functionName =>
              areAllReadOnly db tbl
                ((db contractIdentifier functionName).isSome) rest
            | _ => .err ⟨.ContractCallExpectName, none⟩
          | _ => .err ⟨.ContractCallExpectName, none⟩
        | _ => .abort) := by
  rw [handleNativeFunction.eq_def]

/-! ### Obligation results for the fuel-indexed evaluator -/

theorem obind_ok {α β : Type} (a : α) (f : α → Option (CheckResult β)) :
    obind (.ok a) f = f a := rfl

theorem obind_err {α β : Type} (e : CheckError)
    (f : α → Option (CheckResult β)) : obind (.err e) f = some (.err e) := rfl

theorem obind_abort {α β : Type} (f : α → Option (CheckResult β)) :
    obind (.abort : CheckResult α) f = some (.abort : CheckResult β) := rfl

/-- Folding with a `false` accumulator yields `Ok(false)` without visiting
any element. -/
theorem areAll_false_all (db : AnalysisDatabase) (tbl : Table)
    (l : List SymbolicExpression) :
    areAllReadOnly db tbl false l = .ok false := by
  cases l with
  | nil => rw [areAll_nil]
  | cons a rest => rw [areAll_cons_false]

/-- The fuel-indexed evaluator agrees with the evaluator whenever the fuel
dominates the size-based measure of the input: the recursion of the
checker descends only into strict sub-expressions, so a linear amount of
fuel always suffices. -/
theorem evalFuelAgrees (db : AnalysisDatabase) (tbl : Table) :
    ∀ fuel : Nat,
      (∀ expr, 5 * sizeExp expr + 3 ≤ fuel →
        isReadOnlyF db tbl fuel expr = some (isReadOnly db tbl expr)) ∧
      (∀ initial exprs, 5 * sizeList exprs + 4 ≤ fuel →
        areAllReadOnlyF db tbl fuel initial exprs =
          some (areAllReadOnly db tbl initial exprs)) ∧
      (∀ pairs, 5 * sizeList pairs + 1 ≤ fuel →
        isImplicitTupleDefinitionReadOnlyF db tbl fuel pairs =
          some (isImplicitTupleDefinitionReadOnly db tbl pairs)) ∧
      (∀ bindingList, 5 * sizeList bindingList + 1 ≤ fuel →
        letBindingsReadOnlyF db tbl fuel bindingList =
          some (letBindingsReadOnly db tbl bindingList)) ∧
      (∀ f args, 5 * sizeList args + 5 ≤ fuel →
        handleNativeFunctionF db tbl fuel f args =
          some (handleNativeFunction db tbl f args)) ∧
      (∀ exprs, 5 * sizeList exprs + 2 ≤ fuel →
        isFunctionApplicationReadOnlyF db tbl fuel exprs =
          some (isFunctionApplicationReadOnly db tbl exprs)) := by
  intro fuel
  induction fuel using Nat.strong_induction_on with
  | _ fuel IH =>
  rcases fuel with _ | n
  · exact ⟨fun e h => absurd h (by omega),
      fun i l h => absurd h (by omega),
      fun l h => absurd h (by omega),
      fun l h => absurd h (by omega),
      fun f l h => absurd h (by omega),
      fun l h => absurd h (by omega)⟩
  obtain ⟨ihRO, ihAll, ihImp, ihLet, ihHandle, ihApp⟩ :=
    IH n (Nat.lt_succ_self n)
  refine ⟨?_, ?_, ?_, ?_, ?_, ?_⟩
  · -- isReadOnly
    intro expr hle
    cases expr with
    | AtomValue v => simp [isReadOnlyF, isReadOnly_AtomValue]
    | LiteralValue v => simp [isReadOnlyF, isReadOnly_LiteralValue]
    | Atom s => simp [isReadOnlyF, isReadOnly_Atom]
    | listE es =>
      simp only [isReadOnlyF]
      rw [isReadOnly_listE]
      exact ihApp es (by simp only [sizeExp] at hle; omega)
  · -- areAllReadOnly
    intro initial exprs hle
    cases exprs with
    | nil => simp [areAllReadOnlyF, areAll_nil]
    | cons a rest =>
      cases initial with
      | false => simp [areAllReadOnlyF, areAll_cons_false]
      | true =>
        have ha : isReadOnlyF db tbl n a = some (isReadOnly db tbl a) :=
          ihRO a (by simp only [sizeList] at hle; omega)
        rw [areAll_cons_true]
        simp only [areAllReadOnlyF, if_true, ha]
        cases hr : isReadOnly db tbl a with
        | ok b =>
          simp only [CheckResult.bind_ok]
          exact ihAll b rest (by simp only [sizeList] at hle; omega)
        | err e => simp [CheckResult.bind_err]
        | abort => simp [CheckResult.bind_abort]
  · -- isImplicitTupleDefinitionReadOnly
    intro pairs hle
    cases pairs with
    | nil => simp [isImplicitTupleDefinitionReadOnlyF, isImplicit_nil]
    | cons t rest =>
      cases t with
      | listE pl =>
        rcases pl with _ | ⟨k, _ | ⟨v, _ | ⟨w, tl⟩⟩⟩
        · rw [isImplicit_cons_badLength db tbl _ rest
            (by simp only [List.length_nil]; omega)]
          simp [isImplicitTupleDefinitionReadOnlyF]
        · rw [isImplicit_cons_badLength db tbl _ rest
            (by simp only [List.length_cons, List.length_nil]; omega)]
          simp [isImplicitTupleDefinitionReadOnlyF]
        · have hv : isReadOnlyF db tbl n v = some (isReadOnly db tbl v) :=
            ihRO v (by simp only [sizeList, sizeExp] at hle; omega)
          rw [isImplicit_cons_pair]
          simp only [isImplicitTupleDefinitionReadOnlyF, hv]
          cases hr : isReadOnly db tbl v with
          | ok b =>
            cases b
            · simp [CheckResult.bind_ok]
            · simp only [CheckResult.bind_ok, if_true]
              exact ihImp rest (by simp only [sizeList, sizeExp] at hle; omega)
          | err e => simp [CheckResult.bind_err]
          | abort => simp [CheckResult.bind_abort]
        · rw [isImplicit_cons_badLength db tbl _ rest
            (by simp only [List.length_cons]; omega)]
          simp [isImplicitTupleDefinitionReadOnlyF]
      | AtomValue v =>
        rw [isImplicit_cons_nonList db tbl (.AtomValue v) rest rfl]
        simp [isImplicitTupleDefinitionReadOnlyF]
      | Atom s =>
        rw [isImplicit_cons_nonList db tbl (.Atom s) rest rfl]
        simp [isImplicitTupleDefinitionReadOnlyF]
      | LiteralValue v =>
        rw [isImplicit_cons_nonList db tbl (.LiteralValue v) rest rfl]
        simp [isImplicitTupleDefinitionReadOnlyF]
  · -- letBindingsReadOnly
    intro bindingList hle
    cases bindingList with
    | nil => simp [letBindingsReadOnlyF, letBindings_nil]
    | cons t rest =>
      cases t with
      | listE pl =>
        rcases pl with _ | ⟨k, _ | ⟨v, _ | ⟨w, tl⟩⟩⟩
        · rw [letBindings_cons_badLength db tbl _ rest
            (by simp only [List.length_nil]; omega)]
          simp [letBindingsReadOnlyF]
        · rw [letBindings_cons_badLength db tbl _ rest
            (by simp only [List.length_cons, List.length_nil]; omega)]
          simp [letBindingsReadOnlyF]
        · have hv : isReadOnlyF db tbl n v = some (isReadOnly db tbl v) :=
            ihRO v (by simp only [sizeList, sizeExp] at hle; omega)
          rw [letBindings_cons_pair]
          simp only [letBindingsReadOnlyF, hv]
          cases hr : isReadOnly db tbl v with
          | ok b =>
            cases b
            · simp [CheckResult.bind_ok]
            · simp only [CheckResult.bind_ok, if_true]
              exact ihLet rest (by simp only [sizeList, sizeExp] at hle; omega)
          | err e => simp [CheckResult.bind_err]
          | abort => simp [CheckResult.bind_abort]
        · rw [letBindings_cons_badLength db tbl _ rest
            (by simp only [List.length_cons]; omega)]
          simp [letBindingsReadOnlyF]
      | AtomValue v =>
        rw [letBindings_cons_nonList db tbl (.AtomValue v) rest rfl]
        simp [letBindingsReadOnlyF]
      | Atom s =>
        rw [letBindings_cons_nonList db tbl (.Atom s) rest rfl]
        simp [letBindingsReadOnlyF]
      | LiteralValue v =>
        rw [letBindings_cons_nonList db tbl (.LiteralValue v) rest rfl]
        simp [letBindingsReadOnlyF]
  · -- handleNativeFunction
    intro f args hle
    cases f with
    | Add =>
      rw [handle_argsDetermine db tbl .Add args rfl]
      simp only [handleNativeFunctionF]
      exact ihAll true args (by omega)
    | Subtract =>
      rw [handle_argsDetermine db tbl .Subtract args rfl]
      simp only [handleNativeFunctionF]
      exact ihAll true args (by omega)
    | Divide =>
      rw [handle_argsDetermine db tbl .Divide args rfl]
      simp only [handleNativeFunctionF]
      exact ihAll true args (by omega)
    | Multiply =>
      rw [handle_argsDetermine db tbl .Multiply args rfl]
      simp only [handleNativeFunctionF]
      exact ihAll true args (by omega)
    | CmpGeq =>
      rw [handle_argsDetermine db tbl .CmpGeq args rfl]
      simp only [handleNativeFunctionF]
      exact ihAll true args (by omega)
    | CmpLeq =>
      rw [handle_argsDetermine db tbl .CmpLeq args rfl]
      simp only [handleNativeFunctionF]
      exact ihAll true args (by omega)
    | CmpLess =>
      rw [handle_argsDetermine db tbl .CmpLess args rfl]
      simp only [handleNativeFunctionF]
      exact ihAll true args (by omega)
    | CmpGreater =>
      rw [handle_argsDetermine db tbl .CmpGreater args rfl]
      simp only [handleNativeFunctionF]
      exact ihAll true args (by omega)
    | Modulo =>
      rw [handle_argsDetermine db tbl .Modulo args rfl]
      simp only [handleNativeFunctionF]
      exact ihAll true args (by omega)
    | Power =>
      rw [handle_argsDetermine db tbl .Power args rfl]
      simp only [handleNativeFunctionF]
      exact ihAll true args (by omega)
    | BitwiseXOR =>
      rw [handle_argsDetermine db tbl .BitwiseXOR args rfl]
      simp only [handleNativeFunctionF]
      exact ihAll true args (by omega)
    | And =>
      rw [handle_argsDetermine db tbl .And args rfl]
      simp only [handleNativeFunctionF]
      exact ihAll true args (by omega)
    | Or =>
      rw [handle_argsDetermine db tbl .Or args rfl]
      simp only [handleNativeFunctionF]
      exact ihAll true args (by omega)
    | Not =>
      rw [handle_argsDetermine db tbl .Not args rfl]
      simp only [handleNativeFunctionF]
      exact ihAll true args (by omega)
    | Hash160 =>
      rw [handle_argsDetermine db tbl .Hash160 args rfl]
      simp only [handleNativeFunctionF]
      exact ihAll true args (by omega)
    | Sha256 =>
      rw [handle_argsDetermine db tbl .Sha256 args rfl]
      simp only [handleNativeFunctionF]
      exact ihAll true args (by omega)
    | Keccak256 =>
      rw [handle_argsDetermine db tbl .Keccak256 args rfl]
      simp only [handleNativeFunctionF]
      exact ihAll true args (by omega)
    | Equals =>
      rw [handle_argsDetermine db tbl .Equals args rfl]
      simp only [handleNativeFunctionF]
      exact ihAll true args (by omega)
    | If =>
      rw [handle_argsDetermine db tbl .If args rfl]
      simp only [handleNativeFunctionF]
      exact ihAll true args (by omega)
    | Sha512 =>
      rw [handle_argsDetermine db tbl .Sha512 args rfl]
      simp only [handleNativeFunctionF]
      exact ihAll true args (by omega)
    | Sha512Trunc256 =>
      rw [handle_argsDetermine db tbl .Sha512Trunc256 args rfl]
      simp only [handleNativeFunctionF]
      exact ihAll true args (by omega)
    | ConsSome =>
      rw [handle_argsDetermine db tbl .ConsSome args rfl]
      simp only [handleNativeFunctionF]
      exact ihAll true args (by omega)
    | ConsOkay =>
      rw [handle_argsDetermine db tbl .ConsOkay args rfl]
      simp only [handleNativeFunctionF]
      exact ihAll true args (by omega)
    | ConsError =>
      rw [handle_argsDetermine db tbl .ConsError args rfl]
      simp only [handleNativeFunctionF]
      exact ihAll true args (by omega)
    | DefaultTo =>
      rw [handle_argsDetermine db tbl .DefaultTo args rfl]
      simp only [handleNativeFunctionF]
      exact ihAll true args (by omega)
    | Expects =>
      rw [handle_argsDetermine db tbl .Expects args rfl]
      simp only [handleNativeFunctionF]
      exact ihAll true args (by omega)
    | ExpectsErr =>
      rw [handle_argsDetermine db tbl .ExpectsErr args rfl]
      simp only [handleNativeFunctionF]
      exact ihAll true args (by omega)
    | IsOkay =>
      rw [handle_argsDetermine db tbl .IsOkay args rfl]
      simp only [handleNativeFunctionF]
      exact ihAll true args (by omega)
    | IsNone =>
      rw [handle_argsDetermine db tbl .IsNone args rfl]
      simp only [handleNativeFunctionF]
      exact ihAll true args (by omega)
    | ToUInt =>
      rw [handle_argsDetermine db tbl .ToUInt args rfl]
      simp only [handleNativeFunctionF]
      exact ihAll true args (by omega)
    | ToInt =>
      rw [handle_argsDetermine db tbl .ToInt args rfl]
      simp only [handleNativeFunctionF]
      exact ihAll true args (by omega)
    | ListCons =>
      rw [handle_argsDetermine db tbl .ListCons args rfl]
      simp only [handleNativeFunctionF]
      exact ihAll true args (by omega)
    | GetBlockInfo =>
      rw [handle_argsDetermine db tbl .GetBlockInfo args rfl]
      simp only [handleNativeFunctionF]
      exact ihAll true args (by omega)
    | TupleGet =>
      rw [handle_argsDetermine db tbl .TupleGet args rfl]
      simp only [handleNativeFunctionF]
      exact ihAll true args (by omega)
    | Print =>
      rw [handle_argsDetermine db tbl .Print args rfl]
      simp only [handleNativeFunctionF]
      exact ihAll true args (by omega)
    | AsContract =>
      rw [handle_argsDetermine db tbl .AsContract args rfl]
      simp only [handleNativeFunctionF]
      exact ihAll true args (by omega)
    | Begin =>
      rw [handle_argsDetermine db tbl .Begin args rfl]
      simp only [handleNativeFunctionF]
      exact ihAll true args (by omega)
    | FetchVar =>
      rw [handle_argsDetermine db tbl .FetchVar args rfl]
      simp only [handleNativeFunctionF]
      exact ihAll true args (by omega)
    | GetTokenBalance =>
      rw [handle_argsDetermine db tbl .GetTokenBalance args rfl]
      simp only [handleNativeFunctionF]
      exact ihAll true args (by omega)
    | GetAssetOwner =>
      rw [handle_argsDetermine db tbl .GetAssetOwner args rfl]
      simp only [handleNativeFunctionF]
      exact ihAll true args (by omega)
    | SetEntry =>
      rw [handle_alwaysMutating db tbl .SetEntry args rfl]
      simp only [handleNativeFunctionF]
    | DeleteEntry =>
      rw [handle_alwaysMutating db tbl .DeleteEntry args rfl]
      simp only [handleNativeFunctionF]
    | InsertEntry =>
      rw [handle_alwaysMutating db tbl .InsertEntry args rfl]
      simp only [handleNativeFunctionF]
    | SetVar =>
      rw [handle_alwaysMutating db tbl .SetVar args rfl]
      simp only [handleNativeFunctionF]
    | MintAsset =>
      rw [handle_alwaysMutating db tbl .MintAsset args rfl]
      simp only [handleNativeFunctionF]
    | MintToken =>
      rw [handle_alwaysMutating db tbl .MintToken args rfl]
      simp only [handleNativeFunctionF]
    | TransferAsset =>
      rw [handle_alwaysMutating db tbl .TransferAsset args rfl]
      simp only [handleNativeFunctionF]
    | TransferToken =>
      rw [handle_alwaysMutating db tbl .TransferToken args rfl]
      simp only [handleNativeFunctionF]
    | FetchEntry =>
      rcases args with _ | ⟨a0, _ | ⟨a1, rest⟩⟩
      · simp only [handleNativeFunctionF]
        rw [handle_FetchEntry_nil]
      · simp only [handleNativeFunctionF]
        rw [handle_FetchEntry_one]
      · cases hg : getDefinitionTypeOfTupleArgument a1 with
        | Implicit te =>
          simp only [handleNativeFunctionF, hg]
          rw [handle_FetchEntry_implicit db tbl a0 a1 rest hg]
          have hs := getDefinitionType_implicit_size hg
          simp only [sizeList] at hle
          exact ihImp te (by omega)
        | Explicit =>
          simp only [handleNativeFunctionF, hg]
          rw [handle_FetchEntry_explicit db tbl a0 a1 rest hg]
          exact ihAll true (a0 :: a1 :: rest) (by omega)
    | FetchContractEntry =>
      rcases args with _ | ⟨a0, _ | ⟨a1, _ | ⟨a2, rest⟩⟩⟩
      · simp only [handleNativeFunctionF]
        rw [handle_FetchContractEntry_short db tbl _ (by simp)]
      · simp only [handleNativeFunctionF]
        rw [handle_FetchContractEntry_short db tbl _ (by simp)]
      · simp only [handleNativeFunctionF]
        rw [handle_FetchContractEntry_short db tbl _ (by simp)]
      · cases hg : getDefinitionTypeOfTupleArgument a2 with
        | Implicit te =>
          simp only [handleNativeFunctionF, hg]
          rw [handle_FetchContractEntry_implicit db tbl a0 a1 a2 rest hg]
          have hs := getDefinitionType_implicit_size hg
          simp only [sizeList] at hle
          exact ihImp te (by omega)
        | Explicit =>
          simp only [handleNativeFunctionF, hg]
          rw [handle_FetchContractEntry_explicit db tbl a0 a1 a2 rest hg]
          exact ihAll true (a0 :: a1 :: a2 :: rest) (by omega)
    | Let =>
      simp only [handleNativeFunctionF]
      rw [handle_Let]
      cases hc : checkArgumentsAtLeast 2 args with
      | ok u =>
        simp only [obind_ok, CheckResult.bind_ok]
        rcases args with _ | ⟨arg0, body⟩
        · simp
        · cases arg0 with
          | listE bindingList =>
            have hbl : letBindingsReadOnlyF db tbl n bindingList =
                some (letBindingsReadOnly db tbl bindingList) :=
              ihLet bindingList
                (by simp only [sizeList, sizeExp] at hle; omega)
            simp only [hbl]
            cases hlb : letBindingsReadOnly db tbl bindingList with
            | ok b =>
              cases b
              · simp
              · simp only []
                exact ihAll true body
                  (by simp only [sizeList, sizeExp] at hle; omega)
            | err e => simp
            | abort => simp
          | AtomValue v => simp
          | Atom s => simp
          | LiteralValue v => simp
      | err e => simp [obind_err]
      | abort => simp [obind_abort]
    | Map =>
      simp only [handleNativeFunctionF]
      rw [handle_Map]
      cases hc : checkArgumentCount 2 args with
      | ok u =>
        simp only [obind_ok, CheckResult.bind_ok]
        exact ihApp args (by omega)
      | err e => simp [obind_err]
      | abort => simp [obind_abort]
    | Filter =>
      simp only [handleNativeFunctionF]
      rw [handle_Filter]
      cases hc : checkArgumentCount 2 args with
      | ok u =>
        simp only [obind_ok, CheckResult.bind_ok]
        exact ihApp args (by omega)
      | err e => simp [obind_err]
      | abort => simp [obind_abort]
    | Fold =>
      simp only [handleNativeFunctionF]
      rw [handle_Fold]
      cases hc : checkArgumentCount 3 args with
      | ok u =>
        simp only [obind_ok, CheckResult.bind_ok]
        exact ihApp args (by omega)
      | err e => simp [obind_err]
      | abort => simp [obind_abort]
    | TupleCons =>
      simp only [handleNativeFunctionF]
      rw [handle_TupleCons]
      exact ihImp args (by omega)
    | ContractCall =>
      simp only [handleNativeFunctionF]
      rw [handle_ContractCall]
      cases hc : checkArgumentsAtLeast 2 args with
      | ok u =>
        simp only [obind_ok, CheckResult.bind_ok]
        rcases args with _ | ⟨arg0, _ | ⟨arg1, rest⟩⟩
        · simp
        · simp
        · cases arg0 with
          | LiteralValue v =>
            cases v with
            | contractPrincipal cid =>
              cases arg1 with
              | Atom fname =>
                simp only []
                exact ihAll ((db cid fname).isSome) rest
                  (by simp only [sizeList] at hle; omega)
              | AtomValue v2 => simp
              | listE l2 => simp
              | LiteralValue v2 => simp
            | standardPrincipal sp => simp
            | intValue i => simp
            | boolValue b2 => simp
          | AtomValue v => simp
          | Atom s => simp
          | listE l => simp
      | err e => simp [obind_err]
      | abort => simp [obind_abort]
  · -- isFunctionApplicationReadOnly
    intro exprs hle
    cases exprs with
    | nil => simp [isFunctionApplicationReadOnlyF, ifaro_nil]
    | cons fe args =>
      cases fe with
      | Atom name =>
        cases hn : lookupByName name with
        | some f =>
          rw [ifaro_atom_native db tbl args hn]
          simp only [isFunctionApplicationReadOnlyF, hn]
          exact ihHandle f args
            (by simp only [sizeList, sizeExp] at hle; omega)
        | none =>
          cases ht : lookupTable tbl name with
          | some b =>
            rw [ifaro_atom_defined db tbl args hn ht]
            simp only [isFunctionApplicationReadOnlyF, hn, ht]
            exact ihAll b args
              (by simp only [sizeList, sizeExp] at hle; omega)
          | none =>
            rw [ifaro_atom_unknown db tbl args hn ht]
            simp [isFunctionApplicationReadOnlyF, hn, ht]
      | AtomValue v =>
        rw [ifaro_head_not_atom db tbl (.AtomValue v) args rfl]
        simp [isFunctionApplicationReadOnlyF]
      | listE l =>
        rw [ifaro_head_not_atom db tbl (.listE l) args rfl]
        simp [isFunctionApplicationReadOnlyF]
      | LiteralValue v =>
        rw [ifaro_head_not_atom db tbl (.LiteralValue v) args rfl]
        simp [isFunctionApplicationReadOnlyF]

/-- `check_argument_count` either succeeds or raises the argument-count
diagnostic, with no attached expression. -/
theorem checkArgumentCount_cases (expected : Nat)
    (args : List SymbolicExpression) :
    checkArgumentCount expected args = .ok () ∨
      checkArgumentCount expected args =
        .err ⟨.IncorrectArgumentCount expected args.length, none⟩ := by
  unfold checkArgumentCount
  split
  · exact Or.inl rfl
  · exact Or.inr rfl

/-- `check_arguments_at_least` either succeeds or raises the
insufficient-argument-count diagnostic, with no attached expression. -/
theorem checkArgumentsAtLeast_cases (expected : Nat)
    (args : List SymbolicExpression) :
    checkArgumentsAtLeast expected args = .ok () ∨
      checkArgumentsAtLeast expected args =
        .err ⟨.RequiresAtLeastArguments expected args.length, none⟩ := by
  unfold checkArgumentsAtLeast
  split
  · exact Or.inl rfl
  · exact Or.inr rfl

/-- No frame of the fuel-indexed evaluator ever attaches a source
expression to an error it raises or propagates. -/
theorem fuelErrNone (db : AnalysisDatabase) (tbl : Table) :
    ∀ fuel : Nat,
      (∀ expr e, isReadOnlyF db tbl fuel expr = some (.err e) →
        e.expression = none) ∧
      (∀ initial exprs e,
        areAllReadOnlyF db tbl fuel initial exprs = some (.err e) →
        e.expression = none) ∧
      (∀ pairs e,
        isImplicitTupleDefinitionReadOnlyF db tbl fuel pairs = some (.err e) →
        e.expression = none) ∧
      (∀ bindingList e,
        letBindingsReadOnlyF db tbl fuel bindingList = some (.err e) →
        e.expression = none) ∧
      (∀ f args e,
        handleNativeFunctionF db tbl fuel f args = some (.err e) →
        e.expression = none) ∧
      (∀ exprs e,
        isFunctionApplicationReadOnlyF db tbl fuel exprs = some (.err e) →
        e.expression = none) := by
  intro fuel
  induction fuel with
  | zero =>
    refine ⟨?_, ?_, ?_, ?_, ?_, ?_⟩ <;> intro _ <;> intros <;>
      simp_all [isReadOnlyF, areAllReadOnlyF,
        isImplicitTupleDefinitionReadOnlyF, letBindingsReadOnlyF,
        handleNativeFunctionF, isFunctionApplicationReadOnlyF]
  | succ n IHn =>
  obtain ⟨ihRO, ihAll, ihImp, ihLet, ihHandle, ihApp⟩ := IHn
  refine ⟨?_, ?_, ?_, ?_, ?_, ?_⟩
  · -- isReadOnlyF
    intro expr e h
    cases expr with
    | AtomValue v => simp [isReadOnlyF] at h
    | LiteralValue v => simp [isReadOnlyF] at h
    | Atom s => simp [isReadOnlyF] at h
    | listE es =>
      simp only [isReadOnlyF] at h
      exact ihApp es e h
  · -- areAllReadOnlyF
    intro initial exprs e h
    cases exprs with
    | nil => simp [areAllReadOnlyF] at h
    | cons a rest =>
      cases initial with
      | false => simp [areAllReadOnlyF] at h
      | true =>
        simp only [areAllReadOnlyF, if_true] at h
        split at h
        · exact ihAll _ rest e h
        · rename_i e2 heq
          simp only [Option.some.injEq, CheckResult.err.injEq] at h
          subst h
          exact ihRO a e2 heq
        · simp at h
        · simp at h
  · -- isImplicitTupleDefinitionReadOnlyF
    intro pairs e h
    cases pairs with
    | nil => simp [isImplicitTupleDefinitionReadOnlyF] at h
    | cons t rest =>
      cases t with
      | listE pl =>
        rcases pl with _ | ⟨k, _ | ⟨v, _ | ⟨w, tl⟩⟩⟩
        · simp only [isImplicitTupleDefinitionReadOnlyF,
            Option.some.injEq, CheckResult.err.injEq] at h
          subst h
          rfl
        · simp only [isImplicitTupleDefinitionReadOnlyF,
            Option.some.injEq, CheckResult.err.injEq] at h
          subst h
          rfl
        · simp only [isImplicitTupleDefinitionReadOnlyF] at h
          split at h
          · exact ihImp rest e h
          · simp at h
          · rename_i e2 heq
            simp only [Option.some.injEq, CheckResult.err.injEq] at h
            subst h
            exact ihRO v e2 heq
          · simp at h
          · simp at h
        · simp only [isImplicitTupleDefinitionReadOnlyF,
            Option.some.injEq, CheckResult.err.injEq] at h
          subst h
          rfl
      | AtomValue v =>
        simp only [isImplicitTupleDefinitionReadOnlyF,
          Option.some.injEq, CheckResult.err.injEq] at h
        subst h
        rfl
      | Atom s =>
        simp only [isImplicitTupleDefinitionReadOnlyF,
          Option.some.injEq, CheckResult.err.injEq] at h
        subst h
        rfl
      | LiteralValue v =>
        simp only [isImplicitTupleDefinitionReadOnlyF,
          Option.some.injEq, CheckResult.err.injEq] at h
        subst h
        rfl
  · -- letBindingsReadOnlyF
    intro bindingList e h
    cases bindingList with
    | nil => simp [letBindingsReadOnlyF] at h
    | cons t rest =>
      cases t with
      | listE pl =>
        rcases pl with _ | ⟨k, _ | ⟨v, _ | ⟨w, tl⟩⟩⟩
        · simp only [letBindingsReadOnlyF,
            Option.some.injEq, CheckResult.err.injEq] at h
          subst h
          rfl
        · simp only [letBindingsReadOnlyF,
            Option.some.injEq, CheckResult.err.injEq] at h
          subst h
          rfl
        · simp only [letBindingsReadOnlyF] at h
          split at h
          · exact ihLet rest e h
          · simp at h
          · rename_i e2 heq
            simp only [Option.some.injEq, CheckResult.err.injEq] at h
            subst h
            exact ihRO v e2 heq
          · simp at h
          · simp at h
        · simp only [letBindingsReadOnlyF,
            Option.some.injEq, CheckResult.err.injEq] at h
          subst h
          rfl
      | AtomValue v =>
        simp only [letBindingsReadOnlyF,
          Option.some.injEq, CheckResult.err.injEq] at h
        subst h
        rfl
      | Atom s =>
        simp only [letBindingsReadOnlyF,
          Option.some.injEq, CheckResult.err.injEq] at h
        subst h
        rfl
      | LiteralValue v =>
        simp only [letBindingsReadOnlyF,
          Option.some.injEq, CheckResult.err.injEq] at h
        subst h
        rfl
  · -- handleNativeFunctionF
    intro f args e h
    cases f with
    | Add =>
      simp only [handleNativeFunctionF] at h
      exact ihAll true args e h
    | Subtract =>
      simp only [handleNativeFunctionF] at h
      exact ihAll true args e h
    | Divide =>
      simp only [handleNativeFunctionF] at h
      exact ihAll true args e h
    | Multiply =>
      simp only [handleNativeFunctionF] at h
      exact ihAll true args e h
    | CmpGeq =>
      simp only [handleNativeFunctionF] at h
      exact ihAll true args e h
    | CmpLeq =>
      simp only [handleNativeFunctionF] at h
      exact ihAll true args e h
    | CmpLess =>
      simp only [handleNativeFunctionF] at h
      exact ihAll true args e h
    | CmpGreater =>
      simp only [handleNativeFunctionF] at h
      exact ihAll true args e h
    | Modulo =>
      simp only [handleNativeFunctionF] at h
      exact ihAll true args e h
    | Power =>
      simp only [handleNativeFunctionF] at h
      exact ihAll true args e h
    | BitwiseXOR =>
      simp only [handleNativeFunctionF] at h
      exact ihAll true args e h
    | And =>
      simp only [handleNativeFunctionF] at h
      exact ihAll true args e h
    | Or =>
      simp only [handleNativeFunctionF] at h
      exact ihAll true args e h
    | Not =>
      simp only [handleNativeFunctionF] at h
      exact ihAll true args e h
    | Hash160 =>
      simp only [handleNativeFunctionF] at h
      exact ihAll true args e h
    | Sha256 =>
      simp only [handleNativeFunctionF] at h
      exact ihAll true args e h
    | Keccak256 =>
      simp only [handleNativeFunctionF] at h
      exact ihAll true args e h
    | Equals =>
      simp only [handleNativeFunctionF] at h
      exact ihAll true args e h
    | If =>
      simp only [handleNativeFunctionF] at h
      exact ihAll true args e h
    | Sha512 =>
      simp only [handleNativeFunctionF] at h
      exact ihAll true args e h
    | Sha512Trunc256 =>
      simp only [handleNativeFunctionF] at h
      exact ihAll true args e h
    | ConsSome =>
      simp only [handleNativeFunctionF] at h
      exact ihAll true args e h
    | ConsOkay =>
      simp only [handleNativeFunctionF] at h
      exact ihAll true args e h
    | ConsError =>
      simp only [handleNativeFunctionF] at h
      exact ihAll true args e h
    | DefaultTo =>
      simp only [handleNativeFunctionF] at h
      exact ihAll true args e h
    | Expects =>
      simp only [handleNativeFunctionF] at h
      exact ihAll true args e h
    | ExpectsErr =>
      simp only [handleNativeFunctionF] at h
      exact ihAll true args e h
    | IsOkay =>
      simp only [handleNativeFunctionF] at h
      exact ihAll true args e h
    | IsNone =>
      simp only [handleNativeFunctionF] at h
      exact ihAll true args e h
    | ToUInt =>
      simp only [handleNativeFunctionF] at h
      exact ihAll true args e h
    | ToInt =>
      simp only [handleNativeFunctionF] at h
      exact ihAll true args e h
    | ListCons =>
      simp only [handleNativeFunctionF] at h
      exact ihAll true args e h
    | GetBlockInfo =>
      simp only [handleNativeFunctionF] at h
      exact ihAll true args e h
    | TupleGet =>
      simp only [handleNativeFunctionF] at h
      exact ihAll true args e h
    | Print =>
      simp only [handleNativeFunctionF] at h
      exact ihAll true args e h
    | AsContract =>
      simp only [handleNativeFunctionF] at h
      exact ihAll true args e h
    | Begin =>
      simp only [handleNativeFunctionF] at h
      exact ihAll true args e h
    | FetchVar =>
      simp only [handleNativeFunctionF] at h
      exact ihAll true args e h
    | GetTokenBalance =>
      simp only [handleNativeFunctionF] at h
      exact ihAll true args e h
    | GetAssetOwner =>
      simp only [handleNativeFunctionF] at h
      exact ihAll true args e h
    | SetEntry =>
      simp [handleNativeFunctionF] at h
    | DeleteEntry =>
      simp [handleNativeFunctionF] at h
    | InsertEntry =>
      simp [handleNativeFunctionF] at h
    | SetVar =>
      simp [handleNativeFunctionF] at h
    | MintAsset =>
      simp [handleNativeFunctionF] at h
    | MintToken =>
      simp [handleNativeFunctionF] at h
    | TransferAsset =>
      simp [handleNativeFunctionF] at h
    | TransferToken =>
      simp [handleNativeFunctionF] at h
    | FetchEntry =>
      rcases args with _ | ⟨a0, _ | ⟨a1, rest⟩⟩
      · simp [handleNativeFunctionF] at h
      · simp [handleNativeFunctionF] at h
      · cases hg : getDefinitionTypeOfTupleArgument a1 with
        | Implicit te =>
          simp only [handleNativeFunctionF, hg] at h
          exact ihImp te e h
        | Explicit =>
          simp only [handleNativeFunctionF, hg] at h
          exact ihAll true (a0 :: a1 :: rest) e h
    | FetchContractEntry =>
      rcases args with _ | ⟨a0, _ | ⟨a1, _ | ⟨a2, rest⟩⟩⟩
      · simp [handleNativeFunctionF] at h
      · simp [handleNativeFunctionF] at h
      · simp [handleNativeFunctionF] at h
      · cases hg : getDefinitionTypeOfTupleArgument a2 with
        | Implicit te =>
          simp only [handleNativeFunctionF, hg] at h
          exact ihImp te e h
        | Explicit =>
          simp only [handleNativeFunctionF, hg] at h
          exact ihAll true (a0 :: a1 :: a2 :: rest) e h
    | Let =>
      simp only [handleNativeFunctionF] at h
      rcases checkArgumentsAtLeast_cases 2 args with hca | hca <;> rw [hca] at h
      · simp only [obind_ok] at h
        rcases args with _ | ⟨arg0, body⟩
        · simp at h
        · cases arg0 with
          | listE bl =>
            dsimp only at h
            split at h
            · exact ihAll true body e h
            · simp at h
            · rename_i e2 heq
              simp only [Option.some.injEq, CheckResult.err.injEq] at h
              subst h
              exact ihLet bl e2 heq
            · simp at h
            · simp at h
          | AtomValue v =>
            simp only [Option.some.injEq, CheckResult.err.injEq] at h
            subst h
            rfl
          | Atom s2 =>
            simp only [Option.some.injEq, CheckResult.err.injEq] at h
            subst h
            rfl
          | LiteralValue v =>
            simp only [Option.some.injEq, CheckResult.err.injEq] at h
            subst h
            rfl
      · simp only [obind_err, Option.some.injEq, CheckResult.err.injEq] at h
        subst h
        rfl
    | Map =>
      simp only [handleNativeFunctionF] at h
      rcases checkArgumentCount_cases 2 args with hca | hca <;> rw [hca] at h
      · simp only [obind_ok] at h
        exact ihApp args e h
      · simp only [obind_err, Option.some.injEq, CheckResult.err.injEq] at h
        subst h
        rfl
    | Filter =>
      simp only [handleNativeFunctionF] at h
      rcases checkArgumentCount_cases 2 args with hca | hca <;> rw [hca] at h
      · simp only [obind_ok] at h
        exact ihApp args e h
      · simp only [obind_err, Option.some.injEq, CheckResult.err.injEq] at h
        subst h
        rfl
    | Fold =>
      simp only [handleNativeFunctionF] at h
      rcases checkArgumentCount_cases 3 args with hca | hca <;> rw [hca] at h
      · simp only [obind_ok] at h
        exact ihApp args e h
      · simp only [obind_err, Option.some.injEq, CheckResult.err.injEq] at h
        subst h
        rfl
    | TupleCons =>
      simp only [handleNativeFunctionF] at h
      exact ihImp args e h
    | ContractCall =>
      simp only [handleNativeFunctionF] at h
      rcases checkArgumentsAtLeast_cases 2 args with hca | hca <;> rw [hca] at h
      · simp only [obind_ok] at h
        rcases args with _ | ⟨arg0, _ | ⟨arg1, rest⟩⟩
        · simp at h
        · simp at h
        · cases arg0 with
          | LiteralValue v =>
            cases v with
            | contractPrincipal cid =>
              cases arg1 with
              | Atom fname =>
                dsimp only at h
                exact ihAll ((db cid fname).isSome) rest e h
              | AtomValue v2 =>
                simp only [Option.some.injEq, CheckResult.err.injEq] at h
                subst h
                rfl
              | listE l2 =>
                simp only [Option.some.injEq, CheckResult.err.injEq] at h
                subst h
                rfl
              | LiteralValue v2 =>
                simp only [Option.some.injEq, CheckResult.err.injEq] at h
                subst h
                rfl
            | standardPrincipal sp =>
              simp only [Option.some.injEq, CheckResult.err.injEq] at h
              subst h
              rfl
            | intValue i =>
              simp only [Option.some.injEq, CheckResult.err.injEq] at h
              subst h
              rfl
            | boolValue b2 =>
              simp only [Option.some.injEq, CheckResult.err.injEq] at h
              subst h
              rfl
          | AtomValue v =>
            simp only [Option.some.injEq, CheckResult.err.injEq] at h
            subst h
            rfl
          | Atom s2 =>
            simp only [Option.some.injEq, CheckResult.err.injEq] at h
            subst h
            rfl
          | listE l =>
            simp only [Option.some.injEq, CheckResult.err.injEq] at h
            subst h
            rfl
      · simp only [obind_err, Option.some.injEq, CheckResult.err.injEq] at h
        subst h
        rfl
  · -- isFunctionApplicationReadOnlyF
    intro exprs e h
    cases exprs with
    | nil =>
      simp only [isFunctionApplicationReadOnlyF,
        Option.some.injEq, CheckResult.err.injEq] at h
      subst h
      rfl
    | cons fe args =>
      cases fe with
      | Atom name =>
        cases hn : lookupByName name with
        | some f =>
          simp only [isFunctionApplicationReadOnlyF, hn] at h
          exact ihHandle f args e h
        | none =>
          cases ht : lookupTable tbl name with
          | some b =>
            simp only [isFunctionApplicationReadOnlyF, hn, ht] at h
            exact ihAll b args e h
          | none =>
            simp only [isFunctionApplicationReadOnlyF, hn, ht,
              Option.some.injEq, CheckResult.err.injEq] at h
            subst h
            rfl
      | AtomValue v =>
        simp only [isFunctionApplicationReadOnlyF,
          Option.some.injEq, CheckResult.err.injEq] at h
        subst h
        rfl
      | listE l =>
        simp only [isFunctionApplicationReadOnlyF,
          Option.some.injEq, CheckResult.err.injEq] at h
        subst h
        rfl
      | LiteralValue v =>
        simp only [isFunctionApplicationReadOnlyF,
          Option.some.injEq, CheckResult.err.injEq] at h
        subst h
        rfl

/-- Transfer of the no-attachment invariant to the evaluator itself: any
error raised while classifying an expression carries no attached source
expression. -/
theorem isReadOnly_err_expression_none (db : AnalysisDatabase) (tbl : Table)
    (expr : SymbolicExpression) (e : CheckError)
    (h : isReadOnly db tbl expr = .err e) : e.expression = none := by
  have ha := (evalFuelAgrees db tbl (5 * sizeExp expr + 3)).1 expr
    (Nat.le_refl _)
  rw [h] at ha
  exact (fuelErrNone db tbl (5 * sizeExp expr + 3)).1 expr e ha

/-- Once the short-circuiting fold has reached `Ok(false)` on a prefix,
appending further expressions cannot change the result: they are never
visited. -/
theorem areAll_append_false (db : AnalysisDatabase) (tbl : Table)
    (xs ys : List SymbolicExpression)
    (h : areAllReadOnly db tbl true xs = .ok false) :
    areAllReadOnly db tbl true (xs ++ ys) = .ok false := by
  induction xs with
  | nil =>
    rw [areAll_nil] at h
    simp at h
  | cons a rest ih =>
    rw [areAll_cons_true] at h
    rw [List.cons_append, areAll_cons_true]
    cases hr : isReadOnly db tbl a with
    | ok b =>
      rw [hr, CheckResult.bind_ok] at h
      rw [CheckResult.bind_ok]
      cases b
      · exact areAll_false_all db tbl (rest ++ ys)
      · exact ih h
    | err e =>
      rw [hr, CheckResult.bind_err] at h
      simp at h
    | abort =>
      rw [hr, CheckResult.bind_abort] at h
      simp at h

/-- The fold's initial accumulator conjoins with the fold of the list,
provided the list folds without error from a `true` start. -/
theorem areAll_init_and (db : AnalysisDatabase) (tbl : Table)
    (l : List SymbolicExpression) (b : Bool)
    (h : areAllReadOnly db tbl true l = .ok b) :
    ∀ initial : Bool, areAllReadOnly db tbl initial l = .ok (initial && b) := by
  intro initial
  cases initial
  · rw [areAll_false_all]
    simp
  · simpa using h

/-- `check_define_function` on a well-formed signature reduces to the
purity of the body. -/
theorem checkDefineFunction_wellformed (db : AnalysisDatabase) (tbl : Table)
    (name : String) (sigRest : List SymbolicExpression)
    (body : SymbolicExpression) :
    checkDefineFunction db tbl [.listE (.Atom name :: sigRest), body] =
      (match isReadOnly db tbl body with
       | .ok b => .ok (name, b)
       | .err e => .err e
       | .abort => .abort) := by
  have hc : checkArgumentCount 2 [.listE (.Atom name :: sigRest), body] =
      .ok () := by
    simp [checkArgumentCount]
  simp only [checkDefineFunction, hc, CheckResult.bind_ok, matchList, matchAtom]

/-- Processing `(define-read-only (name ...) body)` reduces to the body's
purity: a not-read-only body is the write-attempted error with the table
unchanged, a read-only body records `(name, true)`. -/
theorem checkReadsOnlyValid_readOnly (db : AnalysisDatabase) (tbl : Table)
    (name : String) (sigRest : List SymbolicExpression)
    (body : SymbolicExpression) :
    checkReadsOnlyValid db tbl (defineForm "define-read-only" name sigRest body) =
      (match isReadOnly db tbl body with
       | .ok true => ((name, true) :: tbl, .ok ())
       | .ok false => (tbl, .err ⟨.WriteAttemptedInReadOnly, none⟩)
       | .err e => (tbl, .err e)
       | .abort => (tbl, .abort)) := by
  have hp : tryParse (defineForm "define-read-only" name sigRest body) =
      some (.ReadOnlyFunction, [.listE (.Atom name :: sigRest), body]) := rfl
  simp only [checkReadsOnlyValid, hp, checkDefineFunction_wellformed]
  cases hb : isReadOnly db tbl body with
  | ok b => cases b <;> simp
  | err e => simp
  | abort => simp

/-- Processing `(define-private (name ...) body)` records the body's
purity whatever it is. -/
theorem checkReadsOnlyValid_private (db : AnalysisDatabase) (tbl : Table)
    (name : String) (sigRest : List SymbolicExpression)
    (body : SymbolicExpression) :
    checkReadsOnlyValid db tbl (defineForm "define-private" name sigRest body) =
      (match isReadOnly db tbl body with
       | .ok b => ((name, b) :: tbl, .ok ())
       | .err e => (tbl, .err e)
       | .abort => (tbl, .abort)) := by
  have hp : tryParse (defineForm "define-private" name sigRest body) =
      some (.PrivateFunction, [.listE (.Atom name :: sigRest), body]) := rfl
  simp only [checkReadsOnlyValid, hp, checkDefineFunction_wellformed]
  cases hb : isReadOnly db tbl body with
  | ok b => simp
  | err e => simp
  | abort => simp

/-- Processing `(define-public (name ...) body)` records the body's
purity whatever it is. -/
theorem checkReadsOnlyValid_public (db : AnalysisDatabase) (tbl : Table)
    (name : String) (sigRest : List SymbolicExpression)
    (body : SymbolicExpression) :
    checkReadsOnlyValid db tbl (defineForm "define-public" name sigRest body) =
      (match isReadOnly db tbl body with
       | .ok b => ((name, b) :: tbl, .ok ())
       | .err e => (tbl, .err e)
       | .abort => (tbl, .abort)) := by
  have hp : tryParse (defineForm "define-public" name sigRest body) =
      some (.PublicFunction, [.listE (.Atom name :: sigRest), body]) := rfl
  simp only [checkReadsOnlyValid, hp, checkDefineFunction_wellformed]
  cases hb : isReadOnly db tbl body with
  | ok b => simp
  | err e => simp
  | abort => simp

/-- Any error raised by `check_define_function` carries no attached
source expression. -/
theorem checkDefineFunction_err_expression_none (db : AnalysisDatabase)
    (tbl : Table) (args : List SymbolicExpression) (e : CheckError)
    (h : checkDefineFunction db tbl args = .err e) : e.expression = none := by
  simp only [checkDefineFunction] at h
  rcases checkArgumentCount_cases 2 args with hc | hc <;> rw [hc] at h
  · simp only [CheckResult.bind_ok] at h
    rcases args with _ | ⟨sig, _ | ⟨body, _ | ⟨x, tl⟩⟩⟩
    · simp at h
    · simp at h
    · dsimp only at h
      cases hs : matchList sig with
      | none =>
        rw [hs] at h
        dsimp only at h
        simp only [CheckResult.err.injEq] at h
        subst h
        rfl
      | some sl =>
        rw [hs] at h
        dsimp only at h
        rcases sl with _ | ⟨first, srest⟩
        · dsimp only at h
          simp only [CheckResult.err.injEq] at h
          subst h
          rfl
        · dsimp only at h
          cases hma : matchAtom first with
          | none =>
            rw [hma] at h
            dsimp only at h
            simp only [CheckResult.err.injEq] at h
            subst h
            rfl
          | some fname =>
            rw [hma] at h
            dsimp only at h
            cases hb : isReadOnly db tbl body with
            | ok b => rw [hb] at h; simp at h
            | err e2 =>
              rw [hb] at h
              simp only [CheckResult.err.injEq] at h
              subst h
              exact isReadOnly_err_expression_none db tbl body e2 hb
            | abort => rw [hb] at h; simp at h
    · simp at h
  · simp only [CheckResult.bind_err, CheckResult.err.injEq] at h
    subst h
    rfl

/-- Processing one top-level form either leaves the table untouched or
extends it by one successful definition. -/
theorem checkReadsOnlyValid_table_cases (db : AnalysisDatabase) (tbl : Table)
    (expr : SymbolicExpression) :
    (checkReadsOnlyValid db tbl expr).1 = tbl ∨
      ∃ name b, checkReadsOnlyValid db tbl expr = ((name, b) :: tbl, .ok ()) := by
  cases htp : tryParse expr with
  | none => exact Or.inl (by simp [checkReadsOnlyValid, htp])
  | some p =>
    obtain ⟨dt, args⟩ := p
    cases dt
    case Constant => exact Or.inl (by simp [checkReadsOnlyValid, htp])
    case Map => exact Or.inl (by simp [checkReadsOnlyValid, htp])
    case PersistedVariable => exact Or.inl (by simp [checkReadsOnlyValid, htp])
    case FungibleToken => exact Or.inl (by simp [checkReadsOnlyValid, htp])
    case NonFungibleToken => exact Or.inl (by simp [checkReadsOnlyValid, htp])
    case PrivateFunction =>
      cases hcd : checkDefineFunction db tbl args with
      | ok p2 =>
        exact Or.inr ⟨p2.1, p2.2, by simp [checkReadsOnlyValid, htp, hcd]⟩
      | err e => exact Or.inl (by simp [checkReadsOnlyValid, htp, hcd])
      | abort => exact Or.inl (by simp [checkReadsOnlyValid, htp, hcd])
    case PublicFunction =>
      cases hcd : checkDefineFunction db tbl args with
      | ok p2 =>
        exact Or.inr ⟨p2.1, p2.2, by simp [checkReadsOnlyValid, htp, hcd]⟩
      | err e => exact Or.inl (by simp [checkReadsOnlyValid, htp, hcd])
      | abort => exact Or.inl (by simp [checkReadsOnlyValid, htp, hcd])
    case ReadOnlyFunction =>
      cases hcd : checkDefineFunction db tbl args with
      | ok p2 =>
        cases hb : p2.2
        · exact Or.inl (by simp [checkReadsOnlyValid, htp, hcd, hb])
        · exact Or.inr ⟨p2.1, p2.2, by simp [checkReadsOnlyValid, htp, hcd, hb]⟩
      | err e => exact Or.inl (by simp [checkReadsOnlyValid, htp, hcd])
      | abort => exact Or.inl (by simp [checkReadsOnlyValid, htp, hcd])

/-- Any error produced while processing one top-level form carries no
attached source expression: in this module only the top-level driver
attaches expressions. -/
theorem checkReadsOnlyValid_err_expression_none (db : AnalysisDatabase)
    (tbl : Table) (expr : SymbolicExpression) (e : CheckError)
    (h : (checkReadsOnlyValid db tbl expr).2 = .err e) : e.expression = none := by
  simp only [checkReadsOnlyValid] at h
  cases htp : tryParse expr with
  | none => rw [htp] at h; simp at h
  | some p =>
    obtain ⟨dt, args⟩ := p
    rw [htp] at h
    cases dt <;> dsimp only at h
    · simp at h
    · simp at h
    · simp at h
    · simp at h
    · simp at h
    · cases hcd : checkDefineFunction db tbl args with
      | ok p2 => rw [hcd] at h; simp at h
      | err e2 =>
        rw [hcd] at h
        dsimp only at h
        simp only [CheckResult.err.injEq] at h
        subst h
        exact checkDefineFunction_err_expression_none db tbl args e2 hcd
      | abort => rw [hcd] at h; simp at h
    · cases hcd : checkDefineFunction db tbl args with
      | ok p2 => rw [hcd] at h; simp at h
      | err e2 =>
        rw [hcd] at h
        dsimp only at h
        simp only [CheckResult.err.injEq] at h
        subst h
        exact checkDefineFunction_err_expression_none db tbl args e2 hcd
      | abort => rw [hcd] at h; simp at h
    · cases hcd : checkDefineFunction db tbl args with
      | ok p2 =>
        rw [hcd] at h
        dsimp only at h
        cases hb : p2.2
        · rw [hb] at h
          simp only [Bool.false_eq_true, if_false, CheckResult.err.injEq] at h
          subst h
          rfl
        · rw [hb] at h
          simp at h
      | err e2 =>
        rw [hcd] at h
        dsimp only at h
        simp only [CheckResult.err.injEq] at h
        subst h
        exact checkDefineFunction_err_expression_none db tbl args e2 hcd
      | abort => rw [hcd] at h; simp at h

/-- Evaluation of the concrete mutating application `(set-var! x 1)`. -/
theorem wExpr_eval : isReadOnly db0 [] wExpr = .ok false := by
  rw [wExpr, isReadOnly_listE,
      @ifaro_atom_native db0 [] "set-var!" .SetVar
        [.Atom "x", .LiteralValue (.intValue 1)] rfl,
      handle_alwaysMutating db0 [] .SetVar _ rfl]

/-- Evaluation of the concrete malformed application `(1)`. -/
theorem badExpr_eval :
    isReadOnly db0 [] badExpr = .err ⟨.NonFunctionApplication, none⟩ := by
  rw [badExpr, isReadOnly_listE,
      ifaro_head_not_atom db0 [] (.LiteralValue (.intValue 1)) [] rfl]

/-- Evaluation of the concrete application `(fetch-entry m)`: the
`FetchEntry` rule indexes `args[1]` on a 1-element slice and aborts. -/
theorem fetchEntryOne_eval :
    isReadOnly db0 [] (.listE [.Atom "fetch-entry", .Atom "m"]) = .abort := by
  rw [isReadOnly_listE,
      @ifaro_atom_native db0 [] "fetch-entry" .FetchEntry [.Atom "m"] rfl,
      handle_FetchEntry_one]

/-- `(let ((a (set-var! x 1))) 1)`: the mutating binding value makes the
whole let not-read-only. -/
theorem letBody_eval :
    isReadOnly db0 [] (.listE [.Atom "let",
      .listE [.listE [.Atom "a", wExpr]], .LiteralValue (.intValue 1)]) =
      .ok false := by
  have hlb : letBindingsReadOnly db0 [] [.listE [.Atom "a", wExpr]] =
      .ok false := by
    rw [letBindings_cons_pair, wExpr_eval, CheckResult.bind_ok]
    simp
  rw [isReadOnly_listE,
      @ifaro_atom_native db0 [] "let" .Let
        [.listE [.listE [.Atom "a", wExpr]], .LiteralValue (.intValue 1)] rfl,
      handle_Let,
      show checkArgumentsAtLeast 2 [.listE [.listE [.Atom "a", wExpr]],
        .LiteralValue (.intValue 1)] = .ok () from rfl,
      CheckResult.bind_ok]
  dsimp only
  rw [hlb]

/-- `(tuple (k (set-var! x 1)))`: the mutating value expression makes the
tuple construction not-read-only. -/
theorem tupleBody_eval :
    isReadOnly db0 [] (.listE [.Atom "tuple", .listE [.Atom "k", wExpr]]) =
      .ok false := by
  rw [isReadOnly_listE,
      @ifaro_atom_native db0 [] "tuple" .TupleCons
        [.listE [.Atom "k", wExpr]] rfl,
      handle_TupleCons, isImplicit_cons_pair, wExpr_eval, CheckResult.bind_ok]
  simp

/-- `(map helper lst)` with `helper` recorded not-read-only classifies
not-read-only through the higher-order recursion. -/
theorem mapBody_eval :
    isReadOnly db0 [("helper", false)]
      (.listE [.Atom "map", .Atom "helper", .Atom "lst"]) = .ok false := by
  rw [isReadOnly_listE,
      @ifaro_atom_native db0 [("helper", false)] "map" .Map
        [.Atom "helper", .Atom "lst"] rfl,
      handle_Map,
      show checkArgumentCount 2 [.Atom "helper", .Atom "lst"] = .ok () from rfl,
      CheckResult.bind_ok,
      @ifaro_atom_defined db0 [("helper", false)] "helper" false
        [.Atom "lst"] rfl rfl,
      areAll_false_all]

/-! ### Claims -/

/-- C1 counterexample: in `(+ (set-var! x 1) (1))` the first argument is
classified not-read-only and the second argument `(1)` is malformed — by
itself it classifies to the non-function-application error — yet the whole
args-determine application is classified `Ok(false)` with no error: the
malformed later argument is never visited, so the syntax error is
swallowed, contradicting the claim as stated. -/
theorem C1_counterexample :
    isReadOnly db0 [] (.listE [.Atom "+", wExpr, badExpr]) = .ok false ∧
    isReadOnly db0 [] wExpr = .ok false ∧
    isReadOnly db0 [] badExpr = .err ⟨.NonFunctionApplication, none⟩ := by
  refine ⟨?_, wExpr_eval, badExpr_eval⟩
  rw [isReadOnly_listE,
      @ifaro_atom_native db0 [] "+" .Add [wExpr, badExpr] rfl,
      handle_argsDetermine db0 [] .Add _ rfl,
      areAll_cons_true, wExpr_eval, CheckResult.bind_ok, areAll_cons_false]

/-- C1 (amended): the argument fold of an args-determine application
short-circuits — once a prefix of the arguments folds to not-read-only,
the remaining arguments are not visited and the application is classified
`Ok(false)` without error, whatever the remaining arguments contain; and
an args-determine operator's classification is exactly this fold started
at `true`. -/
theorem C1_theorem :
    (∀ (db : AnalysisDatabase) (tbl : Table)
       (xs ys : List SymbolicExpression),
      areAllReadOnly db tbl true xs = .ok false →
      areAllReadOnly db tbl true (xs ++ ys) = .ok false) ∧
    (∀ (db : AnalysisDatabase) (tbl : Table) (f : NativeFunctions)
       (args : List SymbolicExpression), argsDetermine f = true →
      handleNativeFunction db tbl f args = areAllReadOnly db tbl true args) :=
  ⟨areAll_append_false, handle_argsDetermine⟩

/-- C1 witness: instantiating the amended claim at the counterexample's
argument list. -/
theorem C1_witness :
    areAllReadOnly db0 [] true ([wExpr] ++ [badExpr]) = .ok false ∧
    handleNativeFunction db0 [] .Add [wExpr, badExpr] =
      areAllReadOnly db0 [] true [wExpr, badExpr] :=
  ⟨C1_theorem.1 db0 [] [wExpr] [badExpr]
      (by rw [areAll_cons_true, wExpr_eval, CheckResult.bind_ok, areAll_nil]),
   C1_theorem.2 db0 [] .Add [wExpr, badExpr] rfl⟩

/-- C2: the pass is not total — `(fetch-entry m)` (one argument) indexes
`args[1]` out of bounds and aborts instead of returning a structured
diagnostic; likewise `(fetch-contract-entry c m)` indexes `args[2]`; and
the whole pass aborts on a contract whose private function body contains
such a form. -/
theorem C2_theorem :
    isReadOnly db0 [] (.listE [.Atom "fetch-entry", .Atom "m"]) = .abort ∧
    isReadOnly db0 []
      (.listE [.Atom "fetch-contract-entry", .Atom "c", .Atom "m"]) = .abort ∧
    run db0 [defineForm "define-private" "f" []
      (.listE [.Atom "fetch-entry", .Atom "m"])] = ([], .abort) := by
  refine ⟨fetchEntryOne_eval, ?_, ?_⟩
  · rw [isReadOnly_listE,
        @ifaro_atom_native db0 [] "fetch-contract-entry" .FetchContractEntry
          [.Atom "c", .Atom "m"] rfl,
        handle_FetchContractEntry_short db0 [] _ (by simp)]
  · simp only [run, runLoop, checkReadsOnlyValid_private, fetchEntryOne_eval]

/-- C3: a `define-read-only` form whose body's computed purity is `false`
fails with the write-attempted-in-read-only error and in particular any
always-mutating operator application is classified not-read-only
regardless of arguments; a body whose purity is `true` records
`(name, true)` in the table. -/
theorem C3_theorem :
    (∀ (db : AnalysisDatabase) (tbl : Table) (name : String)
       (sigRest : List SymbolicExpression) (body : SymbolicExpression),
      (isReadOnly db tbl body = .ok false →
        checkReadsOnlyValid db tbl
          (defineForm "define-read-only" name sigRest body) =
          (tbl, .err ⟨.WriteAttemptedInReadOnly, none⟩)) ∧
      (isReadOnly db tbl body = .ok true →
        checkReadsOnlyValid db tbl
          (defineForm "define-read-only" name sigRest body) =
          ((name, true) :: tbl, .ok ()))) ∧
    (∀ (db : AnalysisDatabase) (tbl : Table) (f : NativeFunctions)
       (args : List SymbolicExpression), alwaysMutating f = true →
      handleNativeFunction db tbl f args = .ok false) := by
  refine ⟨?_, handle_alwaysMutating⟩
  intro db tbl name sigRest body
  constructor
  · intro h
    rw [checkReadsOnlyValid_readOnly, h]
  · intro h
    rw [checkReadsOnlyValid_readOnly, h]

/-- C3 witness: `(define-read-only (setx) (set-var! x 1))` is rejected
with the write-attempted error, `(define-read-only (getx) x)` is recorded
read-only, and `set-var!` is not-read-only on any arguments. -/
theorem C3_witness :
    checkReadsOnlyValid db0 [] (defineForm "define-read-only" "setx" [] wExpr) =
      ([], .err ⟨.WriteAttemptedInReadOnly, none⟩) ∧
    checkReadsOnlyValid db0 [] (defineForm "define-read-only" "setx2" []
      (.listE [.Atom "let", .listE [.listE [.Atom "a", wExpr]],
        .LiteralValue (.intValue 1)])) =
      ([], .err ⟨.WriteAttemptedInReadOnly, none⟩) ∧
    checkReadsOnlyValid db0 [] (defineForm "define-read-only" "setx3" []
      (.listE [.Atom "tuple", .listE [.Atom "k", wExpr]])) =
      ([], .err ⟨.WriteAttemptedInReadOnly, none⟩) ∧
    checkReadsOnlyValid db0 [("helper", false)]
      (defineForm "define-read-only" "pick" []
        (.listE [.Atom "map", .Atom "helper", .Atom "lst"])) =
      ([("helper", false)], .err ⟨.WriteAttemptedInReadOnly, none⟩) ∧
    checkReadsOnlyValid db0 []
      (defineForm "define-read-only" "getx" [] (.Atom "x")) =
      ([("getx", true)], .ok ()) ∧
    handleNativeFunction db0 [] .SetVar [.Atom "x"] = .ok false :=
  ⟨(C3_theorem.1 db0 [] "setx" [] wExpr).1 wExpr_eval,
   (C3_theorem.1 db0 [] "setx2" [] _).1 letBody_eval,
   (C3_theorem.1 db0 [] "setx3" [] _).1 tupleBody_eval,
   (C3_theorem.1 db0 [("helper", false)] "pick" [] _).1 mapBody_eval,
   (C3_theorem.1 db0 [] "getx" [] (.Atom "x")).2 (isReadOnly_Atom db0 [] "x"),
   C3_theorem.2 db0 [] .SetVar [.Atom "x"] rfl⟩

/-- C4: a contract-call whose first argument is not a literal contract
principal, or whose second argument is not a bare identifier, fails with
the contract-call-expects-name error; otherwise its purity is the
database's answer (absence counting as not-read-only) conjoined with the
purity of the arguments from the third onward. -/
theorem C4_theorem :
    (∀ (db : AnalysisDatabase) (tbl : Table) (a0 a1 : SymbolicExpression)
       (rest : List SymbolicExpression),
      (∀ cid, a0 ≠ .LiteralValue (.contractPrincipal cid)) →
      handleNativeFunction db tbl .ContractCall (a0 :: a1 :: rest) =
        .err ⟨.ContractCallExpectName, none⟩) ∧
    (∀ (db : AnalysisDatabase) (tbl : Table) (cid : String)
       (a1 : SymbolicExpression) (rest : List SymbolicExpression),
      (∀ fname, a1 ≠ .Atom fname) →
      handleNativeFunction db tbl .ContractCall
        (.LiteralValue (.contractPrincipal cid) :: a1 :: rest) =
        .err ⟨.ContractCallExpectName, none⟩) ∧
    (∀ (db : AnalysisDatabase) (tbl : Table) (cid fname : String)
       (rest : List SymbolicExpression) (b : Bool),
      areAllReadOnly db tbl true rest = .ok b →
      handleNativeFunction db tbl .ContractCall
        (.LiteralValue (.contractPrincipal cid) :: .Atom fname :: rest) =
        .ok ((db cid fname).isSome && b)) := by
  have hca : ∀ (a0 a1 : SymbolicExpression) (rest : List SymbolicExpression),
      checkArgumentsAtLeast 2 (a0 :: a1 :: rest) = .ok () := by
    intro a0 a1 rest
    unfold checkArgumentsAtLeast
    rw [if_pos (show 2 ≤ (a0 :: a1 :: rest).length by
      simp only [List.length_cons]; omega)]
  refine ⟨?_, ?_, ?_⟩
  · intro db tbl a0 a1 rest h
    rw [handle_ContractCall, hca a0 a1 rest, CheckResult.bind_ok]
    cases a0 with
    | LiteralValue v =>
      cases v with
      | contractPrincipal cid => exact absurd rfl (h cid)
      | standardPrincipal sp => rfl
      | intValue i => rfl
      | boolValue b => rfl
    | AtomValue v => rfl
    | Atom s => rfl
    | listE l => rfl
  · intro db tbl cid a1 rest h
    rw [handle_ContractCall, hca _ a1 rest, CheckResult.bind_ok]
    cases a1 with
    | Atom fname => exact absurd rfl (h fname)
    | AtomValue v => rfl
    | listE l => rfl
    | LiteralValue v => rfl
  · intro db tbl cid fname rest b h
    rw [handle_ContractCall, hca _ _ rest, CheckResult.bind_ok]
    exact areAll_init_and db tbl rest b h ((db cid fname).isSome)

/-- C4 witness: with `getter` registered read-only on contract `ctr` in
the database, a well-formed contract-call is read-only together with its
trailing arguments; malformed first or second arguments raise the
expects-name error. -/
theorem C4_witness :
    handleNativeFunction db1 [] .ContractCall
      [.LiteralValue (.contractPrincipal "ctr"), .Atom "getter", .Atom "y"] =
      .ok ((db1 "ctr" "getter").isSome && true) ∧
    handleNativeFunction db1 [] .ContractCall [.Atom "z", .Atom "getter"] =
      .err ⟨.ContractCallExpectName, none⟩ ∧
    handleNativeFunction db1 [] .ContractCall
      [.LiteralValue (.contractPrincipal "ctr"), .LiteralValue (.intValue 0)] =
      .err ⟨.ContractCallExpectName, none⟩ :=
  ⟨C4_theorem.2.2 db1 [] "ctr" "getter" [.Atom "y"] true
      (by rw [areAll_cons_true, isReadOnly_Atom, CheckResult.bind_ok,
              areAll_nil]),
   C4_theorem.1 db1 [] (.Atom "z") (.Atom "getter") []
      (fun cid h => SymbolicExpression.noConfusion h),
   C4_theorem.2.1 db1 [] "ctr" (.LiteralValue (.intValue 0)) []
      (fun fname h => SymbolicExpression.noConfusion h)⟩

/-- C5: an application whose head identifier is neither native nor in the
definition table fails with the unknown-function error, and concretely a
read-only function calling `helper` before `helper`'s own definition is
rejected with that error even though `helper` is defined later in the
same contract. -/
theorem C5_theorem :
    (∀ (db : AnalysisDatabase) (tbl : Table) (name : String)
       (args : List SymbolicExpression),
      lookupByName name = none → lookupTable tbl name = none →
      isFunctionApplicationReadOnly db tbl (.Atom name :: args) =
        .err ⟨.UnknownFunction name, none⟩) ∧
    run db0
      [defineForm "define-read-only" "wrapper" [] (.listE [.Atom "helper"]),
       defineForm "define-private" "helper" [] (.LiteralValue (.intValue 1))] =
      ([], .err ⟨.UnknownFunction "helper",
        some (defineForm "define-read-only" "wrapper" []
          (.listE [.Atom "helper"]))⟩) := by
  refine ⟨fun db tbl name args h h2 => ifaro_atom_unknown db tbl args h h2, ?_⟩
  have hbody : isReadOnly db0 [] (.listE [.Atom "helper"]) =
      .err ⟨.UnknownFunction "helper", none⟩ := by
    rw [isReadOnly_listE]
    exact ifaro_atom_unknown db0 [] [] rfl rfl
  simp only [run, runLoop, checkReadsOnlyValid_readOnly, hbody]
  simp

/-- C5 witness: `helper` is neither a native operator nor defined in the
empty table, so applying it is the unknown-function error. -/
theorem C5_witness :
    isFunctionApplicationReadOnly db0 [] [.Atom "helper"] =
      .err ⟨.UnknownFunction "helper", none⟩ :=
  C5_theorem.1 db0 [] "helper" [] rfl rfl

/-- C6: `map`/`filter` with exactly two arguments and `fold` with exactly
three classify exactly as the ordinary function application of their full
argument list; any other argument count is the argument-count error. -/
theorem C6_theorem :
    (∀ (db : AnalysisDatabase) (tbl : Table)
       (args : List SymbolicExpression), args.length = 2 →
      handleNativeFunction db tbl .Map args =
          isFunctionApplicationReadOnly db tbl args ∧
        handleNativeFunction db tbl .Filter args =
          isFunctionApplicationReadOnly db tbl args) ∧
    (∀ (db : AnalysisDatabase) (tbl : Table)
       (args : List SymbolicExpression), args.length = 3 →
      handleNativeFunction db tbl .Fold args =
        isFunctionApplicationReadOnly db tbl args) ∧
    (∀ (db : AnalysisDatabase) (tbl : Table)
       (args : List SymbolicExpression), args.length ≠ 2 →
      handleNativeFunction db tbl .Map args =
          .err ⟨.IncorrectArgumentCount 2 args.length, none⟩ ∧
        handleNativeFunction db tbl .Filter args =
          .err ⟨.IncorrectArgumentCount 2 args.length, none⟩) ∧
    (∀ (db : AnalysisDatabase) (tbl : Table)
       (args : List SymbolicExpression), args.length ≠ 3 →
      handleNativeFunction db tbl .Fold args =
        .err ⟨.IncorrectArgumentCount 3 args.length, none⟩) := by
  have hok : ∀ (n : Nat) (args : List SymbolicExpression), args.length = n →
      checkArgumentCount n args = .ok () := by
    intro n args h
    simp [checkArgumentCount, h]
  have herr : ∀ (n : Nat) (args : List SymbolicExpression), args.length ≠ n →
      checkArgumentCount n args =
        .err ⟨.IncorrectArgumentCount n args.length, none⟩ := by
    intro n args h
    simp [checkArgumentCount, h]
  refine ⟨?_, ?_, ?_, ?_⟩
  · intro db tbl args h
    exact ⟨by rw [handle_Map, hok 2 args h, CheckResult.bind_ok],
           by rw [handle_Filter, hok 2 args h, CheckResult.bind_ok]⟩
  · intro db tbl args h
    rw [handle_Fold, hok 3 args h, CheckResult.bind_ok]
  · intro db tbl args h
    exact ⟨by rw [handle_Map, herr 2 args h, CheckResult.bind_err],
           by rw [handle_Filter, herr 2 args h, CheckResult.bind_err]⟩
  · intro db tbl args h
    rw [handle_Fold, herr 3 args h, CheckResult.bind_err]

/-- C6 witness: concrete two- and three-argument higher-order forms, and
wrong argument counts. -/
theorem C6_witness :
    handleNativeFunction db0 [] .Map [.Atom "f", .Atom "lst"] =
      isFunctionApplicationReadOnly db0 [] [.Atom "f", .Atom "lst"] ∧
    handleNativeFunction db0 [] .Fold [.Atom "f", .Atom "lst", .Atom "z"] =
      isFunctionApplicationReadOnly db0 [] [.Atom "f", .Atom "lst", .Atom "z"] ∧
    handleNativeFunction db0 [] .Map [.Atom "f"] =
      .err ⟨.IncorrectArgumentCount 2 1, none⟩ ∧
    handleNativeFunction db0 [] .Fold [.Atom "f"] =
      .err ⟨.IncorrectArgumentCount 3 1, none⟩ :=
  ⟨(C6_theorem.1 db0 [] [.Atom "f", .Atom "lst"] rfl).1,
   C6_theorem.2.1 db0 [] [.Atom "f", .Atom "lst", .Atom "z"] rfl,
   (C6_theorem.2.2.1 db0 [] [.Atom "f"] (by simp)).1,
   C6_theorem.2.2.2 db0 [] [.Atom "f"] (by simp)⟩

/-- C7: `define-private` and `define-public` succeed regardless of the
body's computed purity and record `(name, purity)`, and a later
`define-read-only` whose body calls a name recorded not-read-only is
rejected with the write-attempted error. -/
theorem C7_theorem :
    (∀ (db : AnalysisDatabase) (tbl : Table) (name : String)
       (sigRest : List SymbolicExpression) (body : SymbolicExpression)
       (b : Bool), isReadOnly db tbl body = .ok b →
      checkReadsOnlyValid db tbl
        (defineForm "define-private" name sigRest body) =
        ((name, b) :: tbl, .ok ())) ∧
    (∀ (db : AnalysisDatabase) (tbl : Table) (name : String)
       (sigRest : List SymbolicExpression) (body : SymbolicExpression)
       (b : Bool), isReadOnly db tbl body = .ok b →
      checkReadsOnlyValid db tbl
        (defineForm "define-public" name sigRest body) =
        ((name, b) :: tbl, .ok ())) ∧
    (∀ (db : AnalysisDatabase) (tbl : Table) (name fname : String)
       (sigRest cargs : List SymbolicExpression),
      lookupByName name = none →
      checkReadsOnlyValid db ((name, false) :: tbl)
        (defineForm "define-read-only" fname sigRest
          (.listE (.Atom name :: cargs))) =
        ((name, false) :: tbl, .err ⟨.WriteAttemptedInReadOnly, none⟩)) := by
  refine ⟨?_, ?_, ?_⟩
  · intro db tbl name sigRest body b h
    rw [checkReadsOnlyValid_private, h]
  · intro db tbl name sigRest body b h
    rw [checkReadsOnlyValid_public, h]
  · intro db tbl name fname sigRest cargs h
    have hlk : lookupTable ((name, false) :: tbl) name = some false := by
      simp [lookupTable]
    have hbody : isReadOnly db ((name, false) :: tbl)
        (.listE (.Atom name :: cargs)) = .ok false := by
      rw [isReadOnly_listE, ifaro_atom_defined db _ cargs h hlk,
          areAll_false_all]
    rw [checkReadsOnlyValid_readOnly, hbody]

/-- C7 witness: a mutating private and a mutating public function are
both accepted and recorded not-read-only, and a read-only wrapper calling
the recorded `helper` is rejected. -/
theorem C7_witness :
    checkReadsOnlyValid db0 []
      (defineForm "define-private" "helper" [] wExpr) =
      ([("helper", false)], .ok ()) ∧
    checkReadsOnlyValid db0 [] (defineForm "define-public" "doit" [] wExpr) =
      ([("doit", false)], .ok ()) ∧
    checkReadsOnlyValid db0 [("helper", false)]
      (defineForm "define-read-only" "wrapper" [] (.listE [.Atom "helper"])) =
      ([("helper", false)], .err ⟨.WriteAttemptedInReadOnly, none⟩) :=
  ⟨C7_theorem.1 db0 [] "helper" [] wExpr false wExpr_eval,
   C7_theorem.2.1 db0 [] "doit" [] wExpr false wExpr_eval,
   C7_theorem.2.2 db0 [] "helper" "wrapper" [] [] rfl⟩

/-- C8: every error produced while processing a top-level form carries no
attached expression (inner frames never attach); when a form errors, the
driver loop returns that error with the triggering top-level expression
attached (never overwriting an existing attachment, which the guard
checks); and every error surfaced by the driver carries an attached
expression. -/
theorem C8_theorem :
    (∀ (db : AnalysisDatabase) (tbl : Table) (expr : SymbolicExpression)
       (e : CheckError),
      (checkReadsOnlyValid db tbl expr).2 = .err e → e.expression = none) ∧
    (∀ (db : AnalysisDatabase) (tbl : Table) (exp : SymbolicExpression)
       (rest : List SymbolicExpression) (e : CheckError),
      (checkReadsOnlyValid db tbl exp).2 = .err e →
      (runLoop db tbl (exp :: rest)).2 = .err ⟨e.err, some exp⟩) ∧
    (∀ (db : AnalysisDatabase) (tbl : Table)
       (exprs : List SymbolicExpression) (e : CheckError),
      (runLoop db tbl exprs).2 = .err e → e.expression.isSome = true) := by
  refine ⟨checkReadsOnlyValid_err_expression_none, ?_, ?_⟩
  · intro db tbl exp rest e h
    have hnone := checkReadsOnlyValid_err_expression_none db tbl exp e h
    rcases hcv : checkReadsOnlyValid db tbl exp with ⟨tbl2, r⟩
    rw [hcv] at h
    dsimp only at h
    subst h
    simp [runLoop, hcv, hnone]
  · intro db tbl exprs
    induction exprs generalizing tbl with
    | nil =>
      intro e h
      simp [runLoop] at h
    | cons exp rest ih =>
      intro e h
      rcases hcv : checkReadsOnlyValid db tbl exp with ⟨tbl2, r⟩
      simp only [runLoop, hcv] at h
      cases r with
      | ok u => exact ih tbl2 e h
      | err e2 =>
        dsimp only at h
        cases hexp : e2.expression with
        | some x =>
          rw [hexp] at h
          simp only [Option.isSome_some, if_true, CheckResult.err.injEq] at h
          subst h
          rw [hexp]
          rfl
        | none =>
          rw [hexp] at h
          simp only [Option.isSome_none, Bool.false_eq_true, if_false,
            CheckResult.err.injEq] at h
          rw [← h]
          rfl
      | abort => simp at h

/-- C8 witness: a read-only definition with a malformed body errors
without attachment, the driver attaches the triggering top-level form, and
the surfaced error carries an attachment. -/
theorem C8_witness :
    (⟨CheckErrors.NonFunctionApplication,
      (none : Option SymbolicExpression)⟩ : CheckError).expression = none ∧
    (runLoop db0 [] [defineForm "define-read-only" "f" [] badExpr]).2 =
      .err ⟨.NonFunctionApplication,
        some (defineForm "define-read-only" "f" [] badExpr)⟩ ∧
    (⟨CheckErrors.NonFunctionApplication,
      some (defineForm "define-read-only" "f" [] badExpr)⟩ :
        CheckError).expression.isSome = true := by
  have hcheck : (checkReadsOnlyValid db0 []
      (defineForm "define-read-only" "f" [] badExpr)).2 =
      .err ⟨.NonFunctionApplication, none⟩ := by
    rw [checkReadsOnlyValid_readOnly, badExpr_eval]
  have hrun := C8_theorem.2.1 db0 []
    (defineForm "define-read-only" "f" [] badExpr) [] _ hcheck
  exact ⟨C8_theorem.1 db0 [] (defineForm "define-read-only" "f" [] badExpr)
      _ hcheck,
    hrun,
    C8_theorem.2.2 db0 [] [defineForm "define-read-only" "f" [] badExpr]
      _ hrun⟩

/-- C9: processing a top-level form is atomic with respect to the
definition table — on any error or abort the table is exactly as before
the form, and in particular a read-only definition with a not-read-only
body leaves the table unchanged. -/
theorem C9_theorem :
    (∀ (db : AnalysisDatabase) (tbl : Table) (expr : SymbolicExpression)
       (e : CheckError),
      (checkReadsOnlyValid db tbl expr).2 = .err e →
      (checkReadsOnlyValid db tbl expr).1 = tbl) ∧
    (∀ (db : AnalysisDatabase) (tbl : Table) (expr : SymbolicExpression),
      (checkReadsOnlyValid db tbl expr).2 = .abort →
      (checkReadsOnlyValid db tbl expr).1 = tbl) ∧
    (∀ (db : AnalysisDatabase) (tbl : Table) (name : String)
       (sigRest : List SymbolicExpression) (body : SymbolicExpression),
      isReadOnly db tbl body = .ok false →
      (checkReadsOnlyValid db tbl
        (defineForm "define-read-only" name sigRest body)).1 = tbl) := by
  refine ⟨?_, ?_, ?_⟩
  · intro db tbl expr e h
    rcases checkReadsOnlyValid_table_cases db tbl expr with hc | ⟨name, b, hc⟩
    · exact hc
    · rw [hc] at h
      simp at h
  · intro db tbl expr h
    rcases checkReadsOnlyValid_table_cases db tbl expr with hc | ⟨name, b, hc⟩
    · exact hc
    · rw [hc] at h
      simp at h
  · intro db tbl name sigRest body h
    rw [checkReadsOnlyValid_readOnly, h]

/-- C9 witness: an erroring read-only form, an aborting private form, and
a rejected read-only form all leave the empty table empty. -/
theorem C9_witness :
    (checkReadsOnlyValid db0 []
      (defineForm "define-read-only" "f" [] badExpr)).1 = [] ∧
    (checkReadsOnlyValid db0 [] (defineForm "define-private" "g" []
      (.listE [.Atom "fetch-entry", .Atom "m"]))).1 = [] ∧
    (checkReadsOnlyValid db0 []
      (defineForm "define-read-only" "setx" [] wExpr)).1 = [] := by
  have h1 : (checkReadsOnlyValid db0 []
      (defineForm "define-read-only" "f" [] badExpr)).2 =
      .err ⟨.NonFunctionApplication, none⟩ := by
    rw [checkReadsOnlyValid_readOnly, badExpr_eval]
  have h2 : (checkReadsOnlyValid db0 [] (defineForm "define-private" "g" []
      (.listE [.Atom "fetch-entry", .Atom "m"]))).2 = .abort := by
    rw [checkReadsOnlyValid_private, fetchEntryOne_eval]
  exact ⟨C9_theorem.1 db0 [] _ _ h1,
    C9_theorem.2.1 db0 [] _ h2,
    C9_theorem.2.2 db0 [] "setx" [] wExpr wExpr_eval⟩

/-- C10: the purity evaluator terminates on every finite expression tree:
fuel proportional to the expression's size is always sufficient for the
fuel-indexed evaluator to return, and it returns exactly the evaluator's
result. -/
theorem C10_theorem :
    ∀ (db : AnalysisDatabase) (tbl : Table) (e : SymbolicExpression),
      isReadOnlyF db tbl (5 * sizeExp e + 3) e = some (isReadOnly db tbl e) :=
  fun db tbl e => (evalFuelAgrees db tbl (5 * sizeExp e + 3)).1 e (Nat.le_refl _)

end ReadOnlyChecker
